import Mathlib

/-!
Verification development for the stock-screener core: a shallow embedding
of the DSL validator (`validator.service.js`), the SQL compiler
(`compiler.service.js`), the natural-language translator
(`marketController.js`) and the alert processor (`alertProcessor`
section of the services), together with theorems settling the spec claims.

Modelling conventions:
* JavaScript primitive values (numbers, strings, booleans, arrays,
  `undefined`) are modelled by the inductive `JsVal`; JS numbers are
  modelled as integers (all literals the services compare against are
  integral and no arithmetic is performed on them).
* JS objects with a fixed set of accessed keys (conditions, periods,
  sort items) are modelled as structures whose fields are `Option`s or
  `JsVal`s; absent and `undefined` properties coincide, exactly as the
  services only ever distinguish them via truthiness or `=== undefined`.
* A filter object is modelled by `Filter`: the three recognised keys
  `and` / `or` / `not` plus the list of any unknown key names (the
  validator only reads unknown keys' names, never their values).
* Regular-expression tests from the translator are modelled by
  substring / word-boundary scans over the finite expansions of the
  patterns, assuming single-space whitespace (the claims evaluate the
  translator only on concrete single-spaced inputs, where the two
  semantics agree).
* Error-message strings keep the source wording except that quote
  characters are dropped.
-/

namespace Screener

/-- JsVal models the JavaScript primitive values handled by the services:
`undefined`, numbers (as integers), strings, booleans and arrays. -/
inductive JsVal where
  | undef
  | num (n : Int)
  | str (s : String)
  | bool (b : Bool)
  | arr (elems : List JsVal)

/-- Truthiness of a JS value: `undefined`, `0`, the empty string and
`false` are falsy; arrays are always truthy. -/
def JsVal.truthy : JsVal → Bool
  | .undef => false
  | .num n => n != 0
  | .str s => s != ""
  | .bool b => b
  | .arr _ => true

/-- True exactly for the `undefined` value (models `=== undefined`). -/
def JsVal.isUndef : JsVal → Bool
  | .undef => true
  | _ => false

/-- Truthiness of an optional string property (absent and `""` are falsy). -/
def strTruthy : Option String → Bool
  | none => false
  | some s => s != ""

/-- The `timeframe` legacy object accepted by the validator: its `period`
and `aggregation` properties are read with `||` defaults. -/
structure Timeframe where
  period : JsVal
  aggregation : Option String

/-- The `period` object of a condition: `type`, `n` and `aggregation`
properties as accessed by `_validateCondition` and
`_compilePeriodCondition`. -/
structure Period where
  type : Option String
  n : JsVal
  aggregation : Option String

/-- A condition object: the six properties the validator and compiler
access. `value_is_field : Bool` models the truthiness of that property
(a present-but-`false` property is identified with an absent one). -/
structure Condition where
  field : Option String
  operator : Option String
  value : JsVal
  value_is_field : Bool
  period : Option Period
  timeframe : Option Timeframe

/-- A sort item with its `field` and `direction` properties. -/
structure SortItem where
  field : Option String
  direction : Option String

mutual
/-- A filter object: the values found under the keys `and`, `or`, `not`
(`FSlot.absent` when the key is missing) plus the names of any unknown
keys (whose values the services never read). -/
inductive Filter where
  | mk (fAnd fOr fNot : FSlot) (extra : List String)

/-- The value stored under one of the logical keys of a filter: missing,
a non-array value, or an array of elements. -/
inductive FSlot where
  | absent
  | notArr (v : JsVal)
  | arr (items : List Item)

/-- An element of a logical operator's array: a condition object, a
nested filter object, or a non-object primitive. -/
inductive Item where
  | cond (c : Condition)
  | sub (f : Filter)
  | prim (v : JsVal)
end

/-- A DSL document: the `filter`, `sort` and `limit` properties read by
`validate` and `compile`. -/
structure DSL where
  filter : Option Filter
  sort : Option (List SortItem)
  limit : JsVal

/-! ### Whitelists of `validator.service.js` -/

def ALLOWED_FIELDS : List String :=
  [ "ticker", "name", "market_cap", "sector", "industry", "exchange",
    "next_earnings_date", "last_buyback_date", "promoter_holding",
    "open", "high", "low", "close", "volume",
    "revenue", "net_income", "eps", "operating_margin", "roe", "roa",
    "pe_ratio", "pb_ratio", "peg_ratio", "ebitda",
    "ebitda_margin", "debt_to_equity", "current_ratio",
    "total_assets", "total_debt", "free_cash_flow", "operating_cash_flow",
    "revenue_growth_yoy", "ebitda_growth_yoy",
    "debt_to_fcf",
    "short_term_debt", "long_term_debt",
    "cfo", "cfi", "cff", "capex",
    "eps_estimate", "revenue_estimate",
    "price_target_low", "price_target_avg", "price_target_high" ]

def ALLOWED_OPERATORS : List String :=
  ["<", ">", "<=", ">=", "=", "!=", "between", "in", "exists", "all_quarters"]

def ALLOWED_AGGREGATIONS : List String :=
  ["all", "any", "avg", "sum", "latest"]

/-! ### String utilities (structural, so that the kernel can evaluate
them on concrete inputs) -/

/-- Does `needle` occur as a contiguous sublist of `hay`? -/
def subOccurs (hay needle : List Char) : Bool :=
  match hay with
  | [] => needle.isEmpty
  | _ :: t => needle.isPrefixOf hay || subOccurs t needle

/-- Substring test on strings (JS `String.prototype.includes`). -/
def strContainsB (s sub : String) : Bool :=
  subOccurs s.toList sub.toList

/-- The substring relation as a proposition. -/
def StrContains (s sub : String) : Prop :=
  ∃ a b : String, s = a ++ sub ++ b

/-- Character-wise lower-casing (JS `toLowerCase` on the ASCII inputs
the services handle). -/
def jsLower (s : String) : String :=
  String.mk (s.toList.map Char.toLower)

/-- Character-wise upper-casing (JS `toUpperCase` on ASCII inputs). -/
def jsUpper (s : String) : String :=
  String.mk (s.toList.map Char.toUpper)

/-! ### The validator (`DSLValidatorService`) -/

/-- The `_isCondition` test: the object has truthy `field` and
`operator` properties. -/
def isCondition (c : Condition) : Bool :=
  strTruthy c.field && strTruthy c.operator

/-- Errors produced for the `period` object of a condition
(the period block of `_validateCondition`). -/
def periodErrors (p : Period) : List String :=
  (if p.type = some "last_n_quarters" then []
   else ["period.type must be last_n_quarters"]) ++
  (match p.n with
   | .num k => if 1 ≤ k ∧ k ≤ 20 then [] else ["period.n must be a number between 1 and 20"]
   | _ => ["period.n must be a number between 1 and 20"]) ++
  (match p.aggregation with
   | some a => if a != "" && !(ALLOWED_AGGREGATIONS.contains a)
               then ["Invalid period aggregation: " ++ a] else []
   | none => [])

/-- Errors of `_validateCondition` on a condition object. -/
def condErrors (c : Condition) : List String :=
  (if !strTruthy c.field then ["Condition must have a field property"]
   else if ALLOWED_FIELDS.contains (c.field.getD "") then []
   else ["Invalid field: " ++ c.field.getD ""]) ++
  (if !strTruthy c.operator then ["Condition must have an operator property"]
   else if ALLOWED_OPERATORS.contains (c.operator.getD "") then []
   else ["Invalid operator: " ++ c.operator.getD ""]) ++
  (if c.value.isUndef && c.operator != some "exists"
   then ["Condition must have a value property"] else []) ++
  (if c.value_is_field then
     (match c.value with
      | .str s => if ALLOWED_FIELDS.contains s then []
                  else ["Cross-field comparison value must be an allowed field: " ++ s]
      | _ => ["Cross-field comparison value must be an allowed field"])
   else if c.operator = some "between" then
     (match c.value with
      | .arr xs => if xs.length = 2 then [] else ["Between operator requires array of 2 values"]
      | _ => ["Between operator requires array of 2 values"])
   else if c.operator = some "in" then
     (match c.value with
      | .arr _ => []
      | _ => ["In operator requires array of values"])
   else if c.operator = some "exists" then
     (match c.value with
      | .bool _ => []
      | _ => ["Exists operator requires boolean value"])
   else []) ++
  (match c.period with
   | some p => periodErrors p
   | none => [])

/-- Errors produced when a condition object that fails `_isCondition`
is validated as a filter by `_validateFilter`: each of its present keys
is an unknown filter operator. -/
def condAsFilterErrors (c : Condition) : List String :=
  (if c.field.isSome then ["Unknown filter operator: field"] else []) ++
  (if c.operator.isSome then ["Unknown filter operator: operator"] else []) ++
  (if !c.value.isUndef then ["Unknown filter operator: value"] else []) ++
  (if c.value_is_field then ["Unknown filter operator: value_is_field"] else []) ++
  (if c.period.isSome then ["Unknown filter operator: period"] else []) ++
  (if c.timeframe.isSome then ["Unknown filter operator: timeframe"] else [])

mutual
/-- Errors of `_validateFilter` on a filter object. -/
def filterErrors : Filter → List String
  | .mk a o n extra =>
    slotErrors ("and") a ++ slotErrors ("or") o ++ slotErrors ("not") n ++
    extra.map (fun k => "Unknown filter operator: " ++ k)

/-- Errors for the value stored under the logical key `key`. -/
def slotErrors (key : String) : FSlot → List String
  | .absent => []
  | .notArr _ => ["Logical operator must contain an array: " ++ key]
  | .arr items => itemsErrors items

/-- Errors for all elements of a logical operator's array. -/
def itemsErrors : List Item → List String
  | [] => []
  | i :: rest => itemErrors i ++ itemsErrors rest

/-- Errors for one array element of a logical operator. -/
def itemErrors : Item → List String
  | .cond c => if isCondition c then condErrors c else condAsFilterErrors c
  | .sub f => filterErrors f
  | .prim _ => ["Invalid condition in filter"]
end

/-- Errors of `_validateSort` for one sort item. -/
def sortItemErrors (s : SortItem) : List String :=
  (if !strTruthy s.field then ["Sort item must have a field property"]
   else if ALLOWED_FIELDS.contains (s.field.getD "") then []
   else ["Invalid sort field: " ++ s.field.getD ""]) ++
  (match s.direction with
   | some d => if d != "" && !(["asc", "desc"].contains (jsLower d))
               then ["Invalid sort direction: " ++ d] else []
   | none => [])

/-- Errors of `_validateSort` on a sort array. -/
def sortErrors (items : List SortItem) : List String :=
  items.flatMap sortItemErrors

/-- Errors of `_validateLimit`. -/
def limitErrors (v : JsVal) : List String :=
  match v with
  | .num k => if 1 ≤ k ∧ k ≤ 1000 then [] else ["Limit must be a number between 1 and 1000"]
  | _ => ["Limit must be a number between 1 and 1000"]

/-- The error list computed by `validate`; the DSL is valid iff it is
empty. -/
def validateErrors (dsl : DSL) : List String :=
  match dsl.filter with
  | none => ["DSL must contain a filter property"]
  | some f =>
    filterErrors f ++
    (match dsl.sort with
     | some items => sortErrors items
     | none => []) ++
    (if dsl.limit.isUndef then [] else limitErrors dsl.limit)

/-- Validity of a DSL document (`valid: errors.length === 0`). -/
def dslValid (dsl : DSL) : Bool :=
  validateErrors dsl = []

/-! ### Normalisation performed inside `_validateCondition`
(legacy `timeframe` is rewritten to `period`); the mutated tree is the
`sanitizedDSL` handed to the compiler. -/

/-- Rewrite the legacy `timeframe` property of a condition to `period`. -/
def normCondition (c : Condition) : Condition :=
  match c.timeframe, c.period with
  | some tf, none =>
    { c with
      period := some
        { type := some "last_n_quarters"
        , n := if tf.period.truthy then tf.period else .num 1
        , aggregation := some (match tf.aggregation with
            | some a => if a != "" then a else "all"
            | none => "all") }
      timeframe := none }
  | _, _ => c

mutual
/-- Normalise every condition of a filter. -/
def normFilter : Filter → Filter
  | .mk a o n extra => .mk (normSlot a) (normSlot o) (normSlot n) extra

/-- Normalise the conditions below a logical key. -/
def normSlot : FSlot → FSlot
  | .absent => .absent
  | .notArr v => .notArr v
  | .arr items => .arr (normItems items)

/-- Normalise a list of array elements. -/
def normItems : List Item → List Item
  | [] => []
  | i :: rest => normItem i :: normItems rest

/-- Normalise one array element. -/
def normItem : Item → Item
  | .cond c => .cond (normCondition c)
  | .sub f => .sub (normFilter f)
  | .prim v => .prim v
end

/-- The `sanitizedDSL` returned by a successful validation. -/
def normalizeDSL (dsl : DSL) : DSL :=
  { dsl with filter := dsl.filter.map normFilter }

/-! ### The compiler (`ScreenerCompilerService`) -/

/-- One entry of `FIELD_TABLE_MAP`. -/
structure FieldInfo where
  table : String
  column : String
  derived : Bool

/-- Shorthand for a plain (non-derived) field entry. -/
def fi (t c : String) : Option FieldInfo := some ⟨t, c, false⟩

/-- The compiler's `FIELD_TABLE_MAP`. -/
def FIELD_TABLE_MAP : String → Option FieldInfo
  | "ticker" => fi "companies" "ticker"
  | "name" => fi "companies" "name"
  | "market_cap" => fi "companies" "market_cap"
  | "sector" => fi "companies" "sector"
  | "industry" => fi "companies" "industry"
  | "exchange" => fi "companies" "exchange"
  | "next_earnings_date" => fi "companies" "next_earnings_date"
  | "last_buyback_date" => fi "companies" "last_buyback_date"
  | "promoter_holding" => fi "companies" "promoter_holding"
  | "open" => fi "price_history" "open"
  | "high" => fi "price_history" "high"
  | "low" => fi "price_history" "low"
  | "close" => fi "price_history" "close"
  | "volume" => fi "price_history" "volume"
  | "revenue" => fi "fundamentals_quarterly" "revenue"
  | "net_income" => fi "fundamentals_quarterly" "net_income"
  | "eps" => fi "fundamentals_quarterly" "eps"
  | "operating_margin" => fi "fundamentals_quarterly" "operating_margin"
  | "roe" => fi "fundamentals_quarterly" "roe"
  | "roa" => fi "fundamentals_quarterly" "roa"
  | "pe_ratio" => fi "fundamentals_quarterly" "pe_ratio"
  | "pb_ratio" => fi "fundamentals_quarterly" "pb_ratio"
  | "peg_ratio" => fi "fundamentals_quarterly" "peg_ratio"
  | "ebitda" => fi "fundamentals_quarterly" "ebitda"
  | "ebitda_margin" => fi "fundamentals_quarterly" "ebitda_margin"
  | "debt_to_equity" => fi "fundamentals_quarterly" "debt_to_equity"
  | "current_ratio" => fi "fundamentals_quarterly" "current_ratio"
  | "total_assets" => fi "fundamentals_quarterly" "total_assets"
  | "total_debt" => fi "fundamentals_quarterly" "total_debt"
  | "free_cash_flow" => fi "fundamentals_quarterly" "free_cash_flow"
  | "operating_cash_flow" => fi "fundamentals_quarterly" "operating_cash_flow"
  | "revenue_growth_yoy" => fi "fundamentals_quarterly" "revenue_growth_yoy"
  | "ebitda_growth_yoy" => fi "fundamentals_quarterly" "ebitda_growth_yoy"
  | "short_term_debt" => fi "debt_profile" "short_term_debt"
  | "long_term_debt" => fi "debt_profile" "long_term_debt"
  | "cfo" => fi "cashflow_statements" "cfo"
  | "cfi" => fi "cashflow_statements" "cfi"
  | "cff" => fi "cashflow_statements" "cff"
  | "capex" => fi "cashflow_statements" "capex"
  | "eps_estimate" => fi "analyst_estimates" "eps_estimate"
  | "revenue_estimate" => fi "analyst_estimates" "revenue_estimate"
  | "price_target_low" => fi "analyst_estimates" "price_target_low"
  | "price_target_avg" => fi "analyst_estimates" "price_target_avg"
  | "price_target_high" => fi "analyst_estimates" "price_target_high"
  | "debt_to_fcf" => some ⟨"fundamentals_quarterly", "debt_to_fcf", true⟩
  | _ => none

/-- The SQL formula of the only derived field, `debt_to_fcf`. -/
def derivedSql (tbl : String) : String :=
  "(" ++ tbl ++ ".total_debt::numeric / NULLIF(" ++ tbl ++ ".free_cash_flow::numeric, 0))"

def PERIOD_CAPABLE_TABLES : List String := ["fundamentals_quarterly"]

/-- The fixed table aliases of `_getTableAlias`. -/
def getTableAlias (t : String) : String :=
  match t with
  | "companies" => "c"
  | "fundamentals_quarterly" => "fq"
  | "price_history" => "ph"
  | "debt_profile" => "dp"
  | "cashflow_statements" => "cs"
  | "analyst_estimates" => "ae"
  | _ => t

/-- The compilation context: positional parameters, the parameter
counter and the required-table set (kept as an insertion-ordered list;
only membership and iteration are used). -/
structure Ctx where
  params : List JsVal
  counter : Nat
  tables : List String

/-- The `requiredTables.add` operation. -/
def addTable (ctx : Ctx) (t : String) : Ctx :=
  if ctx.tables.contains t then ctx else { ctx with tables := ctx.tables ++ [t] }

/-- Push one value and return the placeholder using the pre-increment
counter (`'$' + context.paramCounter++`). -/
def pushParam (ctx : Ctx) (v : JsVal) : Ctx × String :=
  ({ ctx with params := ctx.params ++ [v], counter := ctx.counter + 1 },
   "$" ++ Nat.repr ctx.counter)

/-- JS `Array.prototype.join` / the string concatenation the compiler
performs with `.join(sep)`. -/
def joinWith (sep : String) : List String → String
  | [] => ""
  | [x] => x
  | x :: y :: rest => x ++ sep ++ joinWith sep (y :: rest)

/-- The `_invertOperator` map (identity outside its six keys). -/
def invertOperator (op : String) : String :=
  match op with
  | ">" => "<="
  | "<" => ">="
  | ">=" => "<"
  | "<=" => ">"
  | "=" => "!="
  | "!=" => "="
  | _ => op

/-- JS property indexing `v[i]` on a value: throws on `undefined`,
indexes arrays and strings, yields `undefined` otherwise. -/
def jsIndex : JsVal → Nat → Except String JsVal
  | .undef, _ => .error "TypeError: cannot read properties of undefined"
  | .arr xs, i => .ok (xs.getD i .undef)
  | .str s, i =>
    .ok (match s.toList.get? i with
         | some ch => .str (String.mk [ch])
         | none => .undef)
  | _, _ => .ok (.undef)

/-- The `_compileOperator` switch. -/
def compileOperator (colRef : String) (c : Condition) (ctx : Ctx) :
    Except String (String × Ctx) :=
  let op := c.operator.getD ""
  if op = "<" ∨ op = ">" ∨ op = "<=" ∨ op = ">=" ∨ op = "=" ∨ op = "!=" then
    let (ctx1, ph) := pushParam ctx c.value
    .ok (colRef ++ " " ++ op ++ " " ++ ph, ctx1)
  else if op = "between" then do
    let v0 ← jsIndex c.value 0
    let v1 ← jsIndex c.value 1
    let (ctx1, p1) := pushParam ctx v0
    let (ctx2, p2) := pushParam ctx1 v1
    .ok (colRef ++ " BETWEEN " ++ p1 ++ " AND " ++ p2, ctx2)
  else if op = "in" then
    match c.value with
    | .arr xs =>
      let placeholders :=
        joinWith ", " ((List.range xs.length).map (fun i => "$" ++ Nat.repr (ctx.counter + i)))
      .ok (colRef ++ " IN (" ++ placeholders ++ ")",
           { ctx with params := ctx.params ++ xs, counter := ctx.counter + xs.length })
    | _ => .error "TypeError: condition.value.map is not a function"
  else if op = "exists" then
    .ok ((if c.value.truthy then colRef ++ " IS NOT NULL" else colRef ++ " IS NULL"), ctx)
  else
    .error ("Unsupported operator: " ++ op)

/-- The `_compilePeriodCondition` cases (`all`, `any`, `avg`/`sum`,
fallback to the latest single-row behaviour). -/
def compilePeriodCondition (c : Condition) (p : Period) (finfo : FieldInfo) (ctx : Ctx) :
    Except String (String × Ctx) :=
  let col := finfo.column
  let op := c.operator.getD ""
  let agg := match p.aggregation with
             | none => "all"
             | some a => a
  let subAlias := "pq_" ++ Nat.repr ctx.counter
  if agg = "all" then
    let (ctx1, valP) := pushParam ctx c.value
    let (ctx2, nP) := pushParam ctx1 p.n
    .ok (joinWith " "
      [ "NOT EXISTS (",
        "  SELECT 1 FROM (",
        "    SELECT " ++ col ++ " FROM fundamentals_quarterly",
        "    WHERE ticker = c.ticker AND " ++ col ++ " IS NOT NULL",
        "    ORDER BY id DESC LIMIT " ++ nP,
        "  ) " ++ subAlias,
        "  WHERE " ++ subAlias ++ "." ++ col ++ " " ++ invertOperator op ++ " " ++ valP,
        ")" ], ctx2)
  else if agg = "any" then
    let (ctx1, valP) := pushParam ctx c.value
    let (ctx2, nP) := pushParam ctx1 p.n
    .ok (joinWith " "
      [ "EXISTS (",
        "  SELECT 1 FROM (",
        "    SELECT " ++ col ++ " FROM fundamentals_quarterly",
        "    WHERE ticker = c.ticker AND " ++ col ++ " IS NOT NULL",
        "    ORDER BY id DESC LIMIT " ++ nP,
        "  ) " ++ subAlias,
        "  WHERE " ++ subAlias ++ "." ++ col ++ " " ++ op ++ " " ++ valP,
        ")" ], ctx2)
  else if agg = "avg" ∨ agg = "sum" then
    let aggFn := jsUpper agg
    let (ctx1, nP) := pushParam ctx p.n
    let (ctx2, valP) := pushParam ctx1 c.value
    .ok (joinWith " "
      [ "(",
        "  SELECT " ++ aggFn ++ "(" ++ subAlias ++ "." ++ col ++ ") FROM (",
        "    SELECT " ++ col ++ " FROM fundamentals_quarterly",
        "    WHERE ticker = c.ticker AND " ++ col ++ " IS NOT NULL",
        "    ORDER BY id DESC LIMIT " ++ nP,
        "  ) " ++ subAlias,
        ") " ++ op ++ " " ++ valP ], ctx2)
  else
    let ctx1 := addTable ctx finfo.table
    compileOperator (getTableAlias finfo.table ++ "." ++ col) c ctx1

/-- The tail of `_compileCondition`: the latest-non-null correlated
subquery for `fundamentals_quarterly` columns, else the standard
single-row reference. -/
def compileCondRest (c : Condition) (finfo : FieldInfo) (ctx : Ctx) :
    Except String (String × Ctx) :=
  if finfo.table = "fundamentals_quarterly" then
    let ctx1 := addTable ctx finfo.table
    let col := finfo.column
    let subRef := "(SELECT fq_sub." ++ col ++ " FROM fundamentals_quarterly fq_sub" ++
      " WHERE fq_sub.ticker = c.ticker AND fq_sub." ++ col ++ " IS NOT NULL" ++
      " ORDER BY fq_sub.id DESC LIMIT 1)"
    compileOperator subRef c ctx1
  else
    let ctx1 := addTable ctx finfo.table
    compileOperator (getTableAlias finfo.table ++ "." ++ finfo.column) c ctx1

/-- The `_compileCondition` branch chain. -/
def compileCondition (c : Condition) (ctx : Ctx) : Except String (String × Ctx) :=
  match FIELD_TABLE_MAP (c.field.getD "") with
  | none => .error ("Unknown field: " ++ c.field.getD "")
  | some finfo =>
    if c.value_is_field then
      match c.value with
      | .str s =>
        match FIELD_TABLE_MAP s with
        | none => .error ("Unknown comparison field: " ++ s)
        | some finfo2 =>
          let ctx1 := addTable (addTable ctx finfo.table) finfo2.table
          .ok (getTableAlias finfo.table ++ "." ++ finfo.column ++ " " ++
               c.operator.getD "" ++ " " ++
               getTableAlias finfo2.table ++ "." ++ finfo2.column, ctx1)
      | _ => .error "Unknown comparison field"
    else if c.field.getD "" = "sector" ∨ c.field.getD "" = "exchange" ∨
            c.field.getD "" = "industry" then
      compileOperator (getTableAlias finfo.table ++ "." ++ finfo.column) c
        (addTable ctx finfo.table)
    else if (c.field.getD "" = "last_buyback_date" ∨
             c.field.getD "" = "next_earnings_date") ∧ c.operator = some "exists" then
      let ctx1 := addTable ctx finfo.table
      let colRef := getTableAlias finfo.table ++ "." ++ finfo.column
      .ok ((if c.value.truthy then colRef ++ " IS NOT NULL" else colRef ++ " IS NULL"), ctx1)
    else if finfo.derived then
      compileOperator (derivedSql (getTableAlias finfo.table)) c (addTable ctx finfo.table)
    else
      match c.period with
      | some p =>
        if PERIOD_CAPABLE_TABLES.contains finfo.table then
          compilePeriodCondition c p finfo ctx
        else
          compileCondRest c finfo ctx
      | none => compileCondRest c finfo ctx

/-- Truthiness of the value under a logical key (arrays are truthy). -/
def fslotTruthy : FSlot → Bool
  | .absent => false
  | .notArr v => v.truthy
  | .arr _ => true

mutual
/-- The recursive `_compileFilter` on a (present) filter object.
For a truthy `not` the source computes `_compileFilter` on the array
(or primitive) stored there; an array or primitive has no `and`, `or`
or `not` property, so that inner call always yields `1=1`. -/
def compileFilterF : Filter → Ctx → Except String (String × Ctx)
  | .mk a o n _, ctx =>
    if fslotTruthy a then compileSlotLogical a ("AND") ctx
    else if fslotTruthy o then compileSlotLogical o ("OR") ctx
    else if fslotTruthy n then .ok ("NOT (" ++ "1=1" ++ ")", ctx)
    else .ok ("1=1", ctx)

/-- The `_compileLogical` call on the array under a logical key; a
non-array value there raises a `TypeError` in the source (`.map` on a
non-array). -/
def compileSlotLogical : FSlot → String → Ctx → Except String (String × Ctx)
  | .arr items, joiner, ctx => do
    let (parts, ctx1) ← compileItemList items ctx
    let joined := joinWith (" " ++ joiner ++ " ") parts
    .ok ((if joiner = "OR" then "(" ++ joined ++ ")" else joined), ctx1)
  | .notArr _, _, _ => .error "TypeError: conditions.map is not a function"
  | .absent, _, _ => .error "TypeError: conditions.map is not a function"

/-- Sequential compilation of the elements of a logical array. -/
def compileItemList : List Item → Ctx → Except String (List String × Ctx)
  | [], ctx => .ok ([], ctx)
  | i :: rest, ctx => do
    let (s, ctx1) ← compileItem i ctx
    let (ss, ctx2) ← compileItemList rest ctx1
    .ok (s :: ss, ctx2)

/-- One element: a condition compiles via `_compileCondition`; an object
failing `_isCondition` or a primitive goes through `_compileFilter`,
which yields `1=1` for it (no `and` / `or` / `not` property). -/
def compileItem : Item → Ctx → Except String (String × Ctx)
  | .cond c, ctx =>
    if isCondition c then compileCondition c ctx
    else .ok ("(" ++ "1=1" ++ ")", ctx)
  | .sub f, ctx => do
    let (s, ctx1) ← compileFilterF f ctx
    .ok ("(" ++ s ++ ")", ctx1)
  | .prim _, ctx => .ok ("(" ++ "1=1" ++ ")", ctx)
end

/-- The `_compileFilter` entry point (a missing filter yields `1=1`). -/
def compileFilterTop : Option Filter → Ctx → Except String (String × Ctx)
  | none, ctx => .ok ("1=1", ctx)
  | some f, ctx => compileFilterF f ctx

/-- The `_compileSort` mapping (a missing or unknown sort field makes
the source read `.table` of `undefined`, a `TypeError`). -/
def compileSortItems : List SortItem → Except String (List String)
  | [] => .ok []
  | s :: rest => do
    match FIELD_TABLE_MAP (s.field.getD "") with
    | none => .error "TypeError: cannot read properties of undefined"
    | some finfo =>
      let dir := jsUpper (match s.direction with
                  | some d => if d != "" then d else "ASC"
                  | none => "ASC")
      let others ← compileSortItems rest
      .ok ((getTableAlias finfo.table ++ "." ++ finfo.column ++ " " ++ dir ++ " NULLS LAST")
           :: others)

/-- The `_compileSort` join. -/
def compileSort (items : List SortItem) : Except String String := do
  let parts ← compileSortItems items
  .ok (joinWith ", " parts)

/-- The per-column `COALESCE` fallback line of the SELECT projection. -/
def fqLine (col : String) : String :=
  "  COALESCE(fq." ++ col ++ ", (SELECT _f." ++ col ++
  " FROM fundamentals_quarterly _f WHERE _f.ticker = c.ticker AND _f." ++
  col ++ " IS NOT NULL ORDER BY _f.id DESC LIMIT 1)) AS " ++ col ++ ","

/-- The fixed projection and FROM lines of the emitted SELECT. -/
def selectLines : List String :=
  [ "SELECT DISTINCT",
    "  c.ticker,",
    "  c.name,",
    "  c.sector,",
    "  c.industry,",
    "  c.exchange,",
    "  c.market_cap,",
    "  c.promoter_holding,",
    "  c.next_earnings_date,",
    "  c.last_buyback_date,",
    fqLine "pe_ratio", fqLine "pb_ratio", fqLine "roe", fqLine "roa",
    fqLine "revenue", fqLine "net_income", fqLine "eps",
    fqLine "operating_margin", fqLine "ebitda_margin", fqLine "peg_ratio",
    fqLine "ebitda", fqLine "debt_to_equity", fqLine "current_ratio",
    fqLine "total_debt", fqLine "total_assets", fqLine "free_cash_flow",
    fqLine "operating_cash_flow", fqLine "revenue_growth_yoy",
    "  COALESCE(fq.ebitda_growth_yoy, (SELECT _f.ebitda_growth_yoy FROM fundamentals_quarterly _f WHERE _f.ticker = c.ticker AND _f.ebitda_growth_yoy IS NOT NULL ORDER BY _f.id DESC LIMIT 1)) AS ebitda_growth_yoy,",
    "  ph.close AS current_price,",
    "  ph.open,",
    "  ph.high,",
    "  ph.low,",
    "  ph.volume",
    "FROM companies c" ]

def fqJoin : String :=
  "LEFT JOIN LATERAL (\n  SELECT * FROM fundamentals_quarterly\n  WHERE ticker = c.ticker\n  ORDER BY id DESC\n  LIMIT 1\n) fq ON true"

def phJoin : String :=
  "LEFT JOIN LATERAL (\n  SELECT * FROM price_history\n  WHERE ticker = c.ticker\n  ORDER BY time DESC\n  LIMIT 1\n) ph ON true"

def dpJoin : String :=
  "LEFT JOIN LATERAL (\n  SELECT * FROM debt_profile\n  WHERE ticker = c.ticker\n  ORDER BY id DESC\n  LIMIT 1\n) dp ON true"

def csJoin : String :=
  "LEFT JOIN LATERAL (\n  SELECT * FROM cashflow_statements\n  WHERE ticker = c.ticker\n  ORDER BY id DESC\n  LIMIT 1\n) cs ON true"

def aeJoin : String :=
  "LEFT JOIN LATERAL (\n  SELECT * FROM analyst_estimates\n  WHERE ticker = c.ticker\n  ORDER BY estimate_date DESC\n  LIMIT 1\n) ae ON true"

/-- The `_generateJoins` assembly (fixed order: fundamentals, prices,
debt profile, cash flow, analyst estimates). -/
def generateJoins (tables : List String) : String :=
  joinWith "\n"
    ((if tables.contains "fundamentals_quarterly" then [fqJoin] else []) ++
     (if tables.contains "price_history" then [phJoin] else []) ++
     (if tables.contains "debt_profile" then [dpJoin] else []) ++
     (if tables.contains "cashflow_statements" then [csJoin] else []) ++
     (if tables.contains "analyst_estimates" then [aeJoin] else []))

/-- The compiler's result record. -/
structure Compiled where
  sql : String
  params : List JsVal
  requiredTables : List String

/-- The `compile` entry point. `periodSubqueries` is initialised in the
source but never appended to, so the `periodJoins` line is always the
empty string and is removed by the `filter(Boolean)` step. -/
def compile (dsl : DSL) : Except String Compiled := do
  let ctx0 : Ctx := ⟨[], 1, ["companies"]⟩
  let (whereClause, ctx1) ← compileFilterTop dsl.filter ctx0
  let ctx2 := addTable (addTable ctx1 "price_history") "fundamentals_quarterly"
  let joins := generateJoins ctx2.tables
  let orderBy ← match dsl.sort with
                | some items => compileSort items
                | none => pure "c.market_cap DESC NULLS LAST"
  let limit := if dsl.limit.truthy then dsl.limit else .num 100
  let lines := selectLines ++ [joins] ++ [""] ++
    ["WHERE " ++ whereClause,
     "ORDER BY " ++ orderBy,
     "LIMIT $" ++ Nat.repr ctx2.counter]
  let sql := joinWith "\n" (lines.filter (fun l => l != ""))
  .ok ⟨sql, ctx2.params ++ [limit], ctx2.tables⟩

/-! ### The natural-language translator (`translateNLToDSL` and helpers
in `marketController.js`).

Regular expressions are modelled by explicit scanners over `List Char`:
word-boundary tests (`\b`) check the neighbouring characters, `\s+` is
matched as a run of whitespace, and alternations are tried in source
order. Scanners that skip past a match recurse on a fuel argument
bounded by the input length, keeping every definition structurally
recursive so the kernel can evaluate it. -/

namespace NL

/-- The `METRIC_MAP` phrase table, in source (insertion) order. -/
def METRIC_MAP : List (String × String) :=
  [ ("pe", "pe_ratio"), ("pe ratio", "pe_ratio"), ("p/e", "pe_ratio"),
    ("p/e ratio", "pe_ratio"), ("price to earnings", "pe_ratio"),
    ("pb", "pb_ratio"), ("pb ratio", "pb_ratio"), ("p/b", "pb_ratio"),
    ("p/b ratio", "pb_ratio"), ("price to book", "pb_ratio"),
    ("peg", "peg_ratio"), ("peg ratio", "peg_ratio"),
    ("eps", "eps"), ("earnings per share", "eps"),
    ("roe", "roe"), ("return on equity", "roe"),
    ("roa", "roa"), ("return on assets", "roa"),
    ("operating margin", "operating_margin"),
    ("ebitda margin", "ebitda_margin"), ("ebitda", "ebitda"),
    ("revenue", "revenue"), ("sales", "revenue"),
    ("net income", "net_income"), ("net profit", "net_income"),
    ("profit", "net_income"), ("earnings", "net_income"),
    ("revenue growth", "revenue_growth_yoy"),
    ("revenue growth yoy", "revenue_growth_yoy"),
    ("sales growth", "revenue_growth_yoy"),
    ("ebitda growth", "ebitda_growth_yoy"),
    ("ebitda growth yoy", "ebitda_growth_yoy"),
    ("debt to equity", "debt_to_equity"), ("debt equity", "debt_to_equity"),
    ("debt-to-equity", "debt_to_equity"), ("d/e", "debt_to_equity"),
    ("d/e ratio", "debt_to_equity"),
    ("current ratio", "current_ratio"), ("total debt", "total_debt"),
    ("total assets", "total_assets"),
    ("free cash flow", "free_cash_flow"), ("fcf", "free_cash_flow"),
    ("operating cash flow", "operating_cash_flow"), ("ocf", "operating_cash_flow"),
    ("debt to free cash flow", "debt_to_fcf"), ("debt to fcf", "debt_to_fcf"),
    ("debt to free cash flow ratio", "debt_to_fcf"), ("debt/fcf", "debt_to_fcf"),
    ("market cap", "market_cap"), ("market capitalisation", "market_cap"),
    ("market capitalization", "market_cap"), ("mcap", "market_cap"),
    ("promoter holding", "promoter_holding"), ("promoter holdings", "promoter_holding"),
    ("current price", "close"), ("price", "close"), ("stock price", "close"),
    ("short term debt", "short_term_debt"), ("long term debt", "long_term_debt"),
    ("capex", "capex"), ("cfo", "cfo"), ("cfi", "cfi"), ("cff", "cff"),
    ("eps estimate", "eps_estimate"), ("revenue estimate", "revenue_estimate"),
    ("price target", "price_target_avg"), ("target price", "price_target_avg"),
    ("analyst target price", "price_target_avg"), ("analyst target", "price_target_avg"),
    ("price target low", "price_target_low"), ("price target high", "price_target_high") ]

/-- The `GROWTH_FIELD_MAP`. -/
def GROWTH_FIELD_MAP : List (String × String) :=
  [ ("revenue", "revenue_growth_yoy"), ("sales", "revenue_growth_yoy"),
    ("revenue_growth_yoy", "revenue_growth_yoy"),
    ("ebitda", "ebitda_growth_yoy"), ("ebitda_growth_yoy", "ebitda_growth_yoy") ]

/-- The `SECTOR_ALIASES` table, in source order. -/
def SECTOR_ALIASES : List (String × String) :=
  [ ("it", "Technology"), ("information technology", "Technology"),
    ("tech", "Technology"), ("technology", "Technology"),
    ("banking", "Financial Services"), ("finance", "Financial Services"),
    ("financial", "Financial Services"), ("financial services", "Financial Services"),
    ("pharma", "Healthcare"), ("pharmaceutical", "Healthcare"),
    ("healthcare", "Healthcare"),
    ("energy", "Energy"), ("oil", "Energy"), ("oil and gas", "Energy"),
    ("consumer", "Consumer Cyclical"), ("consumer cyclical", "Consumer Cyclical"),
    ("consumer defensive", "Consumer Defensive"), ("fmcg", "Consumer Defensive"),
    ("basic materials", "Basic Materials"), ("materials", "Basic Materials"),
    ("industrials", "Industrials"), ("industrial", "Industrials"),
    ("real estate", "Real Estate"), ("realty", "Real Estate"),
    ("utilities", "Utilities"),
    ("communication", "Communication Services"),
    ("communication services", "Communication Services"),
    ("telecom", "Communication Services") ]

/-- The `EXCHANGE_ALIASES` table. -/
def EXCHANGE_ALIASES : List (String × String) :=
  [ ("nse", "NSI"), ("bse", "BSE"), ("nyse", "NYQ"), ("nasdaq", "NMS") ]

/-- The `INDUSTRY_KEYWORDS` table (values normalised to lists). -/
def INDUSTRY_KEYWORDS : List (String × List String) :=
  [ ("semiconductor", ["Semiconductor Equipment & Materials"]),
    ("software", ["Software - Application", "Software - Infrastructure"]),
    ("banking", ["Banks - Regional"]),
    ("insurance", ["Insurance - Life", "Insurance - Diversified",
                   "Insurance - Property & Casualty"]),
    ("auto", ["Auto Manufacturers", "Auto Parts"]),
    ("steel", ["Steel"]),
    ("cement", ["Building Materials"]),
    ("telecom", ["Telecom Services"]) ]

/-- The `UNIT_MULTIPLIERS` table (integers). -/
def UNIT_MULTIPLIERS : List (String × Int) :=
  [ ("crore", 10000000), ("crores", 10000000), ("cr", 10000000),
    ("lakh", 100000), ("lakhs", 100000), ("l", 100000),
    ("billion", 1000000000), ("b", 1000000000),
    ("million", 1000000), ("m", 1000000),
    ("thousand", 1000), ("k", 1000),
    ("trillion", 1000000000000), ("t", 1000000000000) ]

/-- First-match association lookup. -/
def lookupAssoc : List (String × String) → String → Option String
  | [], _ => none
  | (k, v) :: rest, key => if k = key then some v else lookupAssoc rest key

/-- Association lookup in the unit table. -/
def lookupUnit : List (String × Int) → String → Option Int
  | [], _ => none
  | (k, v) :: rest, key => if k = key then some v else lookupUnit rest key

/-- A JS `\w` word character. -/
def isWordChar (c : Char) : Bool :=
  c.isAlpha || c.isDigit || c = '_'

/-- Does `needle` match at the head of `hay` with `\b` on both sides,
`prev` being the character before the current position? -/
def boundaryMatchAt (needle : List Char) (prev : Option Char) (hay : List Char) : Bool :=
  needle.isPrefixOf hay &&
  (match prev with
   | none => true
   | some c => !isWordChar c) &&
  (match hay.drop needle.length with
   | [] => true
   | c :: _ => !isWordChar c)

/-- Does `needle` occur anywhere in `hay` with word boundaries? -/
def boundaryOccursAux (needle : List Char) (prev : Option Char) : List Char → Bool
  | [] => boundaryMatchAt needle prev []
  | c :: t => boundaryMatchAt needle prev (c :: t) || boundaryOccursAux needle (some c) t

/-- The test of a `\bword\b` pattern against `q`. -/
def wordOccurs (q w : String) : Bool :=
  boundaryOccursAux w.toList none q.toList

/-- The stock-screener `Condition` built by the translator (no period,
no timeframe). -/
def mkCond (f op : String) (v : JsVal) : Condition :=
  ⟨some f, some op, v, false, none, none⟩

/-- `extractSector`: first sector alias occurring with word boundaries. -/
def extractSector (q : String) : Option Condition :=
  (SECTOR_ALIASES.find? (fun kv => wordOccurs q kv.1)).map
    (fun kv => mkCond "sector" "=" (.str kv.2))

/-- `extractExchange`. -/
def extractExchange (q : String) : Option Condition :=
  (EXCHANGE_ALIASES.find? (fun kv => wordOccurs q kv.1)).map
    (fun kv => mkCond "exchange" "=" (.str kv.2))

/-- `extractIndustry`: plain substring matching of the keywords. -/
def extractIndustry (q : String) : Option (List Condition) :=
  let matched := (INDUSTRY_KEYWORDS.filter (fun kv => strContainsB q kv.1)).flatMap (·.2)
  match matched with
  | [] => none
  | [x] => some [mkCond "industry" "=" (.str x)]
  | xs => some [mkCond "industry" "in" (.arr (xs.map .str))]

/-- Finite single-space expansions of the cross-field comparison
patterns: `price (is)? MID (analyst)? target` (the optional leading
`current` and trailing `price` of the source pattern only extend a
match and cannot affect the test). -/
def crossVariants (mids : List String) : List String :=
  mids.flatMap (fun mid =>
    ["", "is "].flatMap (fun isOpt =>
      ["", "analyst "].map (fun anOpt =>
        "price " ++ isOpt ++ mid ++ " " ++ anOpt ++ "target")))

def belowMids : List String := ["below", "under", "less than", "lower than"]

def aboveMids : List String := ["above", "over", "greater than", "higher than"]

/-- `extractCrossFieldComparison`. -/
def extractCrossFieldComparison (q : String) : Option Condition :=
  if (crossVariants belowMids).any (fun v => strContainsB q v) then
    some ⟨some "close", some "<", .str "price_target_avg", true, none, none⟩
  else if (crossVariants aboveMids).any (fun v => strContainsB q v) then
    some ⟨some "close", some ">", .str "price_target_avg", true, none, none⟩
  else none

/-- `extractBuyback` (`/buyback|buy\s*back/`, with the zero-or-more
whitespace collapsed to the two single-space expansions). -/
def extractBuyback (q : String) : Option Condition :=
  if strContainsB q "buyback" || strContainsB q "buy back" then
    some (mkCond "last_buyback_date" "exists" (.bool true))
  else none

/-! #### `findMetricField` -/

/-- Keep `[a-z0-9/ ]`, everything else becomes a space
(the `.replace(/[^a-z0-9\/ ]/g, ' ')` step after lower-casing). -/
def keepChar (c : Char) : Char :=
  if c.isLower || c.isDigit || c = '/' || c = ' ' then c else ' '

/-- Collapse whitespace runs to single spaces (`.replace(/\s+/g, ' ')`). -/
def collapseSpaces : Bool → List Char → List Char
  | _, [] => []
  | prevSp, c :: t =>
    if c = ' ' then
      if prevSp then collapseSpaces true t else ' ' :: collapseSpaces true t
    else c :: collapseSpaces false t

/-- JS `trim`. -/
def jsTrim (s : String) : String :=
  String.mk (((s.toList.dropWhile Char.isWhitespace).reverse.dropWhile
    Char.isWhitespace).reverse)

/-- The phrase normalisation of `findMetricField`. -/
def normalizePhrase (s : String) : String :=
  jsTrim (String.mk (collapseSpaces false ((jsLower s).toList.map keepChar)))

/-- Stable insertion of a key into a length-descending sorted list
(models the stable `sort((a, b) => b.length - a.length)`). -/
def insDesc (x : String) : List String → List String
  | [] => [x]
  | y :: ys => if y.length ≤ x.length then x :: y :: ys else y :: insDesc x ys

/-- Stable length-descending sort of the map keys. -/
def sortKeysDesc : List String → List String
  | [] => []
  | x :: xs => insDesc x (sortKeysDesc xs)

/-- `findMetricField`: exact lookup, then longest-key substring match. -/
def findMetricField (phrase : String) : Option String :=
  let n := normalizePhrase phrase
  match lookupAssoc METRIC_MAP n with
  | some v => some v
  | none =>
    ((sortKeysDesc (METRIC_MAP.map (·.1))).find? (fun k => strContainsB n k)).bind
      (lookupAssoc METRIC_MAP)

/-- `normalizeOperator` (`opMap[...] || op`, on the lower-cased trimmed
operator text). -/
def normalizeOperator (op : String) : String :=
  let key := jsTrim (jsLower op)
  match key with
  | "<" => "<" | ">" => ">" | "<=" => "<=" | ">=" => ">=" | "=" => "=" | "!=" => "!="
  | "is" => "=" | "equal" => "=" | "equal to" => "="
  | "below" => "<" | "under" => "<" | "less than" => "<"
  | "above" => ">" | "over" => ">" | "greater than" => ">" | "more than" => ">"
  | "at least" => ">=" | "no less than" => ">="
  | "at most" => "<=" | "no more than" => "<="
  | _ => op

/-! #### Scanners for the condition-parsing regular expressions -/

def isWs (c : Char) : Bool := c.isWhitespace

/-- A character of the value class `[\d,.]`. -/
def numChar (c : Char) : Bool := c.isDigit || c = ',' || c = '.'

/-- Try a list of literal alternatives at the head of `l`, in order. -/
def tryPrefixes (cands : List String) (l : List Char) : Option (String × List Char) :=
  match cands with
  | [] => none
  | c :: rest =>
    if c.toList.isPrefixOf l then some (c, l.drop c.toList.length)
    else tryPrefixes rest l

/-- Digits of a natural number literal. -/
def parseNatChars (l : List Char) : Nat :=
  l.foldl (fun acc c => acc * 10 + (c.toNat - 48)) 0

/-- `parseFloat` on a `[\d,.]+` capture with the commas already removed,
modelled as the integer part (every literal the claims exercise is
integral). -/
def parseIntValue (l : List Char) : Int :=
  Int.ofNat (parseNatChars (l.takeWhile Char.isDigit))

/-- Operator alternatives of the standard-comparison pattern, in
alternation order. -/
def OP_WORDS : List String :=
  ["!==", "!=", "<=", ">=", "<", ">", "=", "below", "above", "under", "over",
   "at least", "at most", "less than", "greater than", "more than",
   "equal to", "equal", "is"]

/-- Unit alternatives (`crores?|cr|lakhs?|l|...`), `s?` expanded greedily. -/
def UNIT_WORDS : List String :=
  ["crores", "crore", "cr", "lakhs", "lakh", "l", "billion", "b",
   "million", "m", "thousand", "k", "trillion", "t"]

/-- Period unit alternatives (`quarters?|years?|months?`), greedy. -/
def PERIOD_UNIT_WORDS : List String :=
  ["quarters", "quarter", "years", "year", "months", "month"]

/-- Match the optional `(?:the\s+)?` group. -/
def dropTheWs (l : List Char) : List Char :=
  if ("the").toList.isPrefixOf l then
    let r := l.drop 3
    let sp := r.takeWhile isWs
    if sp.isEmpty then l else r.drop sp.length
  else l

/-- Match `\s+X\s+` style: at least one whitespace, then the word from
`cands`, returning the rest after the word. -/
def wsWord (cands : List String) (l : List Char) : Option (String × List Char) :=
  let sp := l.takeWhile isWs
  if sp.isEmpty then none
  else tryPrefixes cands (l.drop sp.length)

/-- The period tail
`(?:\s+(?:in|for|over)\s+(?:the\s+)?last\s+(\d+)\s+(quarters?|years?|months?)(?:\s+(\w+))?)`
matched as a prefix of `l`; returns the parsed `n`, the aggregation
word (if any) and the rest. -/
def periodTailHead (l : List Char) : Option (Nat × Option String × List Char) :=
  match wsWord ["in", "for", "over"] l with
  | none => none
  | some (_, r1) =>
    let sp1 := r1.takeWhile isWs
    if sp1.isEmpty then none else
    let r2 := dropTheWs (r1.drop sp1.length)
    if ("last").toList.isPrefixOf r2 then
      let r3 := (r2.drop 4)
      let sp2 := r3.takeWhile isWs
      if sp2.isEmpty then none else
      let r4 := r3.drop sp2.length
      let ds := r4.takeWhile Char.isDigit
      if ds.isEmpty then none else
      let r5 := r4.drop ds.length
      let sp3 := r5.takeWhile isWs
      if sp3.isEmpty then none else
      match tryPrefixes PERIOD_UNIT_WORDS (r5.drop sp3.length) with
      | none => none
      | some (_, r6) =>
        -- the optional aggregation word `(?:\s+(\w+))?`
        let sp4 := r6.takeWhile isWs
        let r7 := r6.drop sp4.length
        let w := r7.takeWhile isWordChar
        if sp4.isEmpty || w.isEmpty then
          some (parseNatChars ds, none, r6)
        else
          some (parseNatChars ds, some (String.mk w), r7.drop w.length)
    else none

/-- The anchored period tail of the `positive` / `growing` patterns
(`...$`, no aggregation group): succeeds only when it consumes all of
`l`. -/
def periodTailToEnd (l : List Char) : Option Nat :=
  match wsWord ["in", "for", "over"] l with
  | none => none
  | some (_, r1) =>
    let sp1 := r1.takeWhile isWs
    if sp1.isEmpty then none else
    let r2 := dropTheWs (r1.drop sp1.length)
    if ("last").toList.isPrefixOf r2 then
      let r3 := (r2.drop 4)
      let sp2 := r3.takeWhile isWs
      if sp2.isEmpty then none else
      let r4 := r3.drop sp2.length
      let ds := r4.takeWhile Char.isDigit
      if ds.isEmpty then none else
      let r5 := r4.drop ds.length
      let sp3 := r5.takeWhile isWs
      if sp3.isEmpty then none else
      match tryPrefixes PERIOD_UNIT_WORDS (r5.drop sp3.length) with
      | none => none
      | some (_, []) => some (parseNatChars ds)
      | some (_, _ :: _) => none
    else none

/-- Lazy-prefix scan for the `positive` pattern: the earliest split of
the remainder into a non-empty phrase and an (optional) period tail
reaching the end of the string. -/
def splitPosAux (pre : List Char) : List Char → Option (List Char × Option Nat)
  | [] => some (pre, none)
  | c :: t =>
    match periodTailToEnd (c :: t) with
    | some n => some (pre, some n)
    | none => splitPosAux (pre ++ [c]) (t : List Char)

/-- The `^positive\s+(.+?)(?:period)?$` match. -/
def matchPositive (s : String) : Option (List Char × Option Nat) :=
  let l := s.toList
  if ("positive").toList.isPrefixOf l then
    let r := l.drop 8
    let sp := r.takeWhile isWs
    if sp.isEmpty then none else
    match r.drop sp.length with
    | [] => none
    | c :: t => splitPosAux [c] t
  else none

/-- The optional `(?:\s+(?:year over year|yoy|y-o-y))?` group followed by
the optional period tail, both anchored at the end. -/
def growTailToEnd (l : List Char) : Option (Option Nat) :=
  match l with
  | [] => some none
  | _ =>
    (match wsWord ["year over year", "yoy", "y-o-y"] l with
     | some (_, []) => some none
     | some (_, r@(_ :: _)) => (periodTailToEnd r).map some
     | none => none) <|>
    (periodTailToEnd l).map some

/-- Lazy-prefix scan for the `growing` pattern. -/
def splitGrowAux (pre : List Char) : List Char → Option (List Char × Option Nat)
  | [] => some (pre, none)
  | c :: t =>
    match growTailToEnd (c :: t) with
    | some n? => some (pre, n?)
    | none => splitGrowAux (pre ++ [c]) (t : List Char)

/-- The `^(increasing|growing|rising)\s+(.+?)...$` match. -/
def matchGrowing (s : String) : Option (List Char × Option Nat) :=
  match tryPrefixes ["increasing", "growing", "rising"] s.toList with
  | none => none
  | some (_, r) =>
    let sp := r.takeWhile isWs
    if sp.isEmpty then none else
    match r.drop sp.length with
    | [] => none
    | c :: t => splitGrowAux [c] t

/-- A successful match of the standard-comparison pattern. -/
structure StdHit where
  phrase : List Char
  opRaw : String
  numRaw : List Char
  pct : Bool
  unit : Option String
  tail : Option (Nat × Option String)

/-- Try the operator alternatives at the current position; an operator
counts only if a `[\d,.]+` run follows it (otherwise the regex
backtracks to the next alternative). -/
def tryOpsAt (cands : List String) (r1 : List Char) : Option (String × List Char) :=
  match cands with
  | [] => none
  | op :: rest =>
    if op.toList.isPrefixOf r1 then
      let r2 := (r1.drop op.toList.length).dropWhile isWs
      if (r2.takeWhile numChar).isEmpty then tryOpsAt rest r1
      else some (op, r1.drop op.toList.length)
    else tryOpsAt rest r1

/-- Attempt the match `\s*(OP)\s*([\d,.]+)\s*(%?)\s*(UNIT)?(PERIOD)?`
starting right after the candidate phrase `pre`. -/
def tryStdAt (pre rest : List Char) : Option StdHit :=
  let r1 := rest.dropWhile isWs
  match tryOpsAt OP_WORDS r1 with
  | none => none
  | some (op, r2) =>
    let r3 := r2.dropWhile isWs
    let numRaw := r3.takeWhile numChar
    let r4 := r3.drop numRaw.length
    let r5 := r4.dropWhile isWs
    let (pct, r6) := match r5 with
                     | '%' :: t => (true, (t : List Char))
                     | _ => (false, r5)
    let r7 := r6.dropWhile isWs
    let (unit, r8) := match tryPrefixes UNIT_WORDS r7 with
                      | some (u, r) => (some u, r)
                      | none => (none, r7)
    some ⟨pre, op, numRaw, pct,
          unit, (periodTailHead r8).map (fun x => (x.1, x.2.1))⟩

/-- Lazy-prefix scan of the standard-comparison pattern over the whole
string (leftmost match, shortest prefix first). -/
def stdScanAux (pre : List Char) : List Char → Option StdHit
  | [] => none
  | c :: t =>
    match tryStdAt pre (c :: t) with
    | some h => some h
    | none => stdScanAux (pre ++ [c]) (t : List Char)

def stdScan (l : List Char) : Option StdHit :=
  match l with
  | [] => none
  | c :: t => stdScanAux [c] t

/-! #### `parseCondition` -/

def VERB_WORDS : List String :=
  ["show", "find", "get", "list", "display", "give", "search"]

def STOCK_WORDS : List String :=
  ["stocks", "stock", "companies", "companie", "shares", "share"]

def CONNECTOR_WORDS : List String :=
  ["with", "where", "having", "whose", "that have"]

/-- Match one alternative from `cands` followed by `\s+`. -/
def wordThenWs (cands : List String) (l : List Char) : Option (List Char) :=
  match tryPrefixes cands l with
  | none => none
  | some (_, r) =>
    let sp := r.takeWhile isWs
    if sp.isEmpty then none else some (r.drop sp.length)

/-- Optional `(?:X\s+)?` group. -/
def optWordWs (cands : List String) (l : List Char) : List Char :=
  (wordThenWs cands l).getD l

/-- The first anchored preamble strip of `parseCondition`
(`^(verb)\s+(me\s+)?(all\s+)?(stock)\s+(connector)\s+`). -/
def stripPre1 (l : List Char) : List Char :=
  match wordThenWs VERB_WORDS l with
  | none => l
  | some r1 =>
    let r2 := optWordWs ["me"] r1
    let r3 := optWordWs ["all"] r2
    match wordThenWs STOCK_WORDS r3 with
    | none => l
    | some r4 =>
      match wordThenWs CONNECTOR_WORDS r4 with
      | none => l
      | some r5 => r5

/-- The second strip (`^(stock)\s+(connector)\s+`). -/
def stripPre2 (l : List Char) : List Char :=
  match wordThenWs STOCK_WORDS l with
  | none => l
  | some r1 =>
    match wordThenWs CONNECTOR_WORDS r1 with
    | none => l
    | some r2 => r2

/-- The third strip (`^(with|where|having)\s+`). -/
def stripPre3 (l : List Char) : List Char :=
  (wordThenWs ["with", "where", "having"] l).getD l

/-- Build the condition of the standard-comparison stage. -/
def stdHitToCondition (h : StdHit) : Option Condition :=
  let metricPhrase := jsTrim (String.mk h.phrase)
  let rawNoComma := h.numRaw.filter (fun c => c ≠ ',')
  let v0 := parseIntValue rawNoComma
  let v1 := match h.unit.bind (lookupUnit UNIT_MULTIPLIERS) with
            | some mult => v0 * mult
            | none => v0
  match findMetricField metricPhrase with
  | none => none
  | some f =>
    -- FRACTION_FIELDS auto-normalisation (integer division models the
    -- exact `/ 100` on the integral literals the claims exercise)
    let v2 := if f = "promoter_holding" ∧ v1 > 1 then v1 / 100 else v1
    let op := normalizeOperator h.opRaw
    let base : Condition := ⟨some f, some op, .num v2, false, none, none⟩
    match h.tail with
    | some (n, agg) =>
      if n ≠ 0 then
        some { base with period := some ⟨some "last_n_quarters", .num (Int.ofNat n),
                                         some (agg.getD "all")⟩ }
      else some base
    | none => some base

/-- `parseCondition`. -/
def parseCondition (s : String) : Option Condition :=
  let cleanStr := jsTrim (String.mk (stripPre3 (stripPre2 (stripPre1 s.toList))))
  -- stage 1: `positive METRIC (in last N ...)?`
  match (matchPositive cleanStr).bind (fun (phrase, n?) =>
      (findMetricField (jsTrim (String.mk phrase))).map (fun f =>
        let base : Condition := ⟨some f, some ">", .num 0, false, none, none⟩
        match n? with
        | some n => { base with period := some ⟨some "last_n_quarters",
                        .num (Int.ofNat n), some "all"⟩ }
        | none => base)) with
  | some c => some c
  | none =>
  -- stage 2: `increasing|growing|rising METRIC ...`
  match (matchGrowing cleanStr).bind (fun (phrase, n?) =>
      (findMetricField (jsTrim (String.mk phrase))).map (fun baseField =>
        let growthField := (lookupAssoc GROWTH_FIELD_MAP baseField).getD
          (baseField ++ "_growth_yoy")
        let base : Condition := ⟨some growthField, some ">", .num 0, false, none, none⟩
        match n? with
        | some n => { base with period := some ⟨some "last_n_quarters",
                        .num (Int.ofNat n), some "all"⟩ }
        | none => base)) with
  | some c => some c
  | none =>
  -- stage 3: standalone growth phrase, no digits
  let noDigit := !(cleanStr.toList.any Char.isDigit)
  match findMetricField cleanStr with
  | some f =>
    if noDigit && strContainsB f "growth" then
      some ⟨some f, some ">", .num 0, false, none, none⟩
    else if noDigit then
      match lookupAssoc GROWTH_FIELD_MAP f with
      | some g => some ⟨some g, some ">", .num 0, false, none, none⟩
      | none => (stdScan cleanStr.toList).bind stdHitToCondition
    else (stdScan cleanStr.toList).bind stdHitToCondition
  | none => (stdScan cleanStr.toList).bind stdHitToCondition

/-! #### `extractMetricConditions` and the clean-query pipeline.
Global regex replaces are modelled by fuel-driven scanners; the fuel is
the input length, which bounds the number of scanner steps since every
step consumes at least one character. -/

/-- Boundary check after a match (`\b` between the match and the rest). -/
def boundaryAfter (l : List Char) : Bool :=
  match l with
  | [] => true
  | c :: _ => !isWordChar c

/-- The first `^(verbs)\s+(me\s+)?(all\s+)?` strip of
`extractMetricConditions`. -/
def mcStrip1 (l : List Char) : List Char :=
  match wordThenWs VERB_WORDS l with
  | none => l
  | some r1 => optWordWs ["all"] (optWordWs ["me"] r1)

/-- The second `^(stocks?|companies?|shares?)\s+(from\s+)?` strip. -/
def mcStrip2 (l : List Char) : List Char :=
  match wordThenWs STOCK_WORDS l with
  | none => l
  | some r1 => optWordWs ["from"] r1

/-- First suffix alternative matching at `l` with a boundary after it. -/
def trySfxList (sfx : List String) (l : List Char) : Option (String × List Char) :=
  match sfx with
  | [] => none
  | sf :: rest =>
    if sf.toList.isPrefixOf l && boundaryAfter (l.drop sf.toList.length) then
      some (sf, l.drop sf.toList.length)
    else trySfxList rest l

/-- Match `\bW\s*(SUFFIX)?\b` at the head of `l` for one alternation
word `W`, mirroring the greedy backtracking of `\s*(SUFFIX)?\b`:
spaces-plus-suffix, else all spaces when a word character follows, else
nothing when a boundary follows the word itself. Returns the last
consumed character (the `\b` context for the continued global scan) and
the rest. -/
def matchOneRemoval (sfx : List String) (w : String) (prev : Option Char)
    (l : List Char) : Option (Char × List Char) :=
  let wl := w.toList
  if wl.isPrefixOf l &&
     (match prev with
      | none => true
      | some c => !isWordChar c) then
    let r := l.drop wl.length
    let sp := r.takeWhile isWs
    let r1 := r.drop sp.length
    match trySfxList sfx r1 with
    | some (sf, r2) => some ((sf.toList.getLast?).getD ' ', r2)
    | none =>
      if !sp.isEmpty &&
         (match r1 with
          | c :: _ => isWordChar c
          | [] => false) then some (' ', r1)
      else if boundaryAfter r then some ((wl.getLast?).getD ' ', r)
      else none
  else none

/-- Try each alternation word in order. -/
def tryRemovalWords (ws sfx : List String) (prev : Option Char) (l : List Char) :
    Option (Char × List Char) :=
  match ws with
  | [] => none
  | w :: rest =>
    match matchOneRemoval sfx w prev l with
    | some x => some x
    | none => tryRemovalWords rest sfx prev l

/-- The global `\b(W1|...)\s*(S1|...)?\b` → `''` replace. -/
def removeBWAux (ws sfx : List String) : Nat → Option Char → List Char → List Char
  | 0, _, l => l
  | fuel + 1, prev, l =>
    match l with
    | [] => []
    | c :: t =>
      match tryRemovalWords ws sfx prev l with
      | some (lc, rest) => removeBWAux ws sfx fuel (some lc) rest
      | none => c :: removeBWAux ws sfx fuel (some c) t

def removeBoundaryWords (ws sfx : List String) (l : List Char) : List Char :=
  removeBWAux ws sfx l.length none l

/-- First phrase alternative matching at `l` with boundaries on both
sides. -/
def tryPhrases (phs : List String) (prev : Option Char) (l : List Char) :
    Option (Char × List Char) :=
  match phs with
  | [] => none
  | ph :: rest =>
    let pl := ph.toList
    if pl.isPrefixOf l &&
       (match prev with
        | none => true
        | some c => !isWordChar c) &&
       boundaryAfter (l.drop pl.length) then
      some ((pl.getLast?).getD ' ', l.drop pl.length)
    else tryPhrases rest prev l

/-- The global `\b(P1|...)\b` → `''` replace. -/
def removePhrasesAux (phs : List String) : Nat → Option Char → List Char → List Char
  | 0, _, l => l
  | fuel + 1, prev, l =>
    match l with
    | [] => []
    | c :: t =>
      match tryPhrases phs prev l with
      | some (lc, rest) => removePhrasesAux phs fuel (some lc) rest
      | none => c :: removePhrasesAux phs fuel (some c) t

def removePhrases (phs : List String) (l : List Char) : List Char :=
  removePhrasesAux phs l.length none l

/-- The global `\b(whose|that have|that|with|where|having)\b` → `,`
replace. -/
def replaceConnAux (phs : List String) : Nat → Option Char → List Char → List Char
  | 0, _, l => l
  | fuel + 1, prev, l =>
    match l with
    | [] => []
    | c :: t =>
      match tryPhrases phs prev l with
      | some (lc, rest) => ',' :: replaceConnAux phs fuel (some lc) rest
      | none => c :: replaceConnAux phs fuel (some c) t

def CONN_RM_WORDS : List String :=
  ["whose", "that have", "that", "with", "where", "having"]

def replaceConnWords (l : List Char) : List Char :=
  replaceConnAux CONN_RM_WORDS l.length none l

/-- The final `^[\s,]+|[\s,]+$` → `''` trim (and the closing `.trim()`). -/
def trimSC (l : List Char) : List Char :=
  ((l.dropWhile (fun c => isWs c || c = ',')).reverse.dropWhile
    (fun c => isWs c || c = ',')).reverse

/-- The word and suffix alternations of the sector-phrase removal (the
removal regex lists its own alternatives, distinct from
`SECTOR_ALIASES`). -/
def SECTOR_RM_WORDS : List String :=
  ["it", "information technology", "tech", "technology", "banking", "finance",
   "pharma", "healthcare", "energy", "consumer", "fmcg", "industrial",
   "real estate", "utilities", "telecom", "communication"]

def SECTOR_RM_SFX : List String :=
  ["sector", "stocks", "stock", "companies", "companie", "shares", "share"]

def EXCH_RM_WORDS : List String := ["nse", "bse", "nyse", "nasdaq"]

def EXCH_RM_SFX : List String :=
  ["listed", "stocks", "stock", "companies", "companie", "exchange"]

def IND_RM_WORDS : List String := ["semiconductor", "software"]

def IND_RM_SFX : List String := ["companies", "companie", "stocks", "stock"]

/-- Single-space and zero-space expansions of
`\b(that\s+have\s+)?announced\s+stock\s*buybacks?\s+recently\b`,
in greedy order. -/
def BUYBACK_PHRASES : List String :=
  [ "that have announced stock buybacks recently",
    "that have announced stock buyback recently",
    "that have announced stockbuybacks recently",
    "that have announced stockbuyback recently",
    "announced stock buybacks recently",
    "announced stock buyback recently",
    "announced stockbuybacks recently",
    "announced stockbuyback recently" ]

/-! #### Splitting and the `between` protection -/

/-- A `\d+(?:\.\d+)?` literal at the head of `l`. -/
def numLit (l : List Char) : Option (List Char × List Char) :=
  let ds := l.takeWhile Char.isDigit
  if ds.isEmpty then none
  else
    let r := l.drop ds.length
    match r with
    | '.' :: t =>
      let fs := t.takeWhile Char.isDigit
      if fs.isEmpty then some (ds, r)
      else some (ds ++ '.' :: fs, t.drop fs.length)
    | _ => some (ds, r)

/-- Match `between\s+(num)\s+and\s+(num)` at the head of `l`, returning
the two number literals and the rest. -/
def betweenNums (l : List Char) : Option (List Char × List Char × List Char) :=
  if ("between").toList.isPrefixOf l then
    let r := l.drop 7
    let sp := r.takeWhile isWs
    if sp.isEmpty then none else
    match numLit (r.drop sp.length) with
    | none => none
    | some (n1, r1) =>
      let sp1 := r1.takeWhile isWs
      if sp1.isEmpty then none else
      let r2 := r1.drop sp1.length
      if ("and").toList.isPrefixOf r2 then
        let r3 := r2.drop 3
        let sp2 := r3.takeWhile isWs
        if sp2.isEmpty then none else
        match numLit (r3.drop sp2.length) with
        | none => none
        | some (n2, r4) => some (n1, n2, r4)
      else none
  else none

/-- The global protection replace
`between\s+(n1)\s+and\s+(n2)` → `between n1_AND_n2`. -/
def protectBetweenAux : Nat → List Char → List Char
  | 0, l => l
  | fuel + 1, l =>
    match l with
    | [] => []
    | c :: t =>
      match betweenNums l with
      | some (n1, n2, rest) =>
        ("between ").toList ++ n1 ++ ("_AND_").toList ++ n2 ++
          protectBetweenAux fuel rest
      | none => c :: protectBetweenAux fuel t

def protectBetween (l : List Char) : List Char :=
  protectBetweenAux l.length l

/-- The global literal replace (used to restore `_AND_` → ` and `). -/
def replaceAllSub (needle repl : List Char) : Nat → List Char → List Char
  | 0, l => l
  | fuel + 1, l =>
    match l with
    | [] => []
    | c :: t =>
      if !needle.isEmpty && needle.isPrefixOf l then
        repl ++ replaceAllSub needle repl fuel (l.drop needle.length)
      else c :: replaceAllSub needle repl fuel t

/-- Split on `\s*(?:,\s*|\s+and\s+)`. -/
def splitSepsAux : Nat → List Char → List Char → List (List Char)
  | 0, acc, l => [acc ++ l]
  | fuel + 1, acc, l =>
    match l with
    | [] => [acc]
    | c :: t =>
      let sp := l.takeWhile isWs
      let r := l.drop sp.length
      match r with
      | ',' :: t2 => acc :: splitSepsAux fuel [] (t2.dropWhile isWs)
      | _ =>
        if !sp.isEmpty && ("and").toList.isPrefixOf r &&
           !((r.drop 3).takeWhile isWs).isEmpty then
          acc :: splitSepsAux fuel [] ((r.drop 3).dropWhile isWs)
        else acc.append [c] |> (fun acc2 => splitSepsAux fuel acc2 t)

def splitSeps (l : List Char) : List (List Char) :=
  splitSepsAux l.length [] l

/-- Split on `\s+or\s+`. -/
def splitOrAux : Nat → List Char → List Char → List (List Char)
  | 0, acc, l => [acc ++ l]
  | fuel + 1, acc, l =>
    match l with
    | [] => [acc]
    | c :: t =>
      let sp := l.takeWhile isWs
      let r := l.drop sp.length
      if !sp.isEmpty && ("or").toList.isPrefixOf r &&
         !((r.drop 2).takeWhile isWs).isEmpty then
        acc :: splitOrAux fuel [] ((r.drop 2).dropWhile isWs)
      else acc.append [c] |> (fun acc2 => splitOrAux fuel acc2 t)

def splitOr (l : List Char) : List (List Char) :=
  splitOrAux l.length [] l

/-- The per-part `(.+?)\s+between\s+(n1)\s+and\s+(n2)` match of
`parseAndConditions`. -/
def scanBetweenAux (pre : List Char) : List Char → Option (List Char × Int × Int)
  | [] => none
  | c :: t =>
    let sp := (c :: t).takeWhile isWs
    match (if sp.isEmpty then none
           else betweenNums ((c :: t).drop sp.length)) with
    | some (n1, n2, _) =>
      some (pre, parseIntValue (n1.filter (fun ch => ch ≠ ',')),
            parseIntValue (n2.filter (fun ch => ch ≠ ',')))
    | none => scanBetweenAux (pre ++ [c]) (t : List Char)

def betweenMatch (s : String) : Option (String × Int × Int) :=
  match s.toList with
  | [] => none
  | c :: t => (scanBetweenAux [c] t).map (fun x => (jsTrim (String.mk x.1), x.2.1, x.2.2))

/-- `parseAndConditions`. -/
def parseAndConditions (q : String) : List Condition :=
  let prot := protectBetween q.toList
  let parts := splitSeps prot
  parts.flatMap (fun part =>
    let restored := jsTrim (String.mk
      (replaceAllSub ("_AND_").toList (" and ").toList part.length part))
    if restored = "" then []
    else
      match betweenMatch restored with
      | some (fphrase, n1, n2) =>
        match findMetricField fphrase with
        | some f => [⟨some f, some ">=", .num n1, false, none, none⟩,
                     ⟨some f, some "<=", .num n2, false, none, none⟩]
        | none => []
      | none =>
        match parseCondition restored with
        | some c => [c]
        | none => [])

/-- `parseOrConditions`. -/
def parseOrConditions (q : String) : List Item :=
  let parts := splitOr q.toList
  let items := parts.flatMap (fun part =>
    match parseAndConditions (jsTrim (String.mk part)) with
    | [] => []
    | [c] => [Item.cond c]
    | cs => [Item.sub (Filter.mk (.arr (cs.map Item.cond)) .absent .absent [])])
  if items.length > 1 then [Item.sub (Filter.mk .absent (.arr items) .absent [])]
  else items

/-- `extractMetricConditions`. -/
def extractMetricConditions (q : String) : List Item :=
  let l0 := mcStrip2 (mcStrip1 q.toList)
  let l1 := removeBoundaryWords SECTOR_RM_WORDS SECTOR_RM_SFX l0
  let l2 := removeBoundaryWords EXCH_RM_WORDS EXCH_RM_SFX l1
  let l3 := removeBoundaryWords IND_RM_WORDS IND_RM_SFX l2
  let l4 := removePhrases BUYBACK_PHRASES l3
  let l5 := replaceConnWords l4
  let cq := String.mk (trimSC l5)
  if cq = "" then []
  else if (splitOr cq.toList).length > 1 then parseOrConditions cq
  else (parseAndConditions cq).map Item.cond

/-- `translateNLToDSL`: chain the extractors on the lower-cased trimmed
query and wrap the conditions in `filter.and` (or return the degenerate
`filter: {}` when nothing was understood). -/
def translateNLToDSL (query : String) : DSL :=
  let nq := jsTrim (jsLower query)
  let conds : List Item :=
    (extractSector nq).toList.map Item.cond ++
    (extractExchange nq).toList.map Item.cond ++
    ((extractIndustry nq).getD []).map Item.cond ++
    (extractCrossFieldComparison nq).toList.map Item.cond ++
    (extractBuyback nq).toList.map Item.cond ++
    extractMetricConditions nq
  if conds.isEmpty then ⟨some (Filter.mk .absent .absent .absent []), none, .undef⟩
  else ⟨some (Filter.mk (.arr conds) .absent .absent []), none, .undef⟩

end NL

/-! ### The alert processor (`AlertProcessor`): the condition checkers
and a state model of the scheduler's rate limiting. -/

namespace Alerts

/-- JS `Number(x)` coercion, `none` standing for `NaN`. String parsing
covers the integral literals the services store; other strings yield
`NaN`. -/
def jsToNumber : JsVal → Option Int
  | .num n => some n
  | .bool b => some (if b then 1 else 0)
  | .undef => none
  | .str s =>
    let l := s.toList
    if l.isEmpty then some 0
    else
      match l with
      | '-' :: t => if !t.isEmpty && t.all Char.isDigit
                    then some (-(Int.ofNat (NL.parseNatChars t))) else none
      | _ => if l.all Char.isDigit then some (Int.ofNat (NL.parseNatChars l)) else none
  | .arr _ => none

/-- The condition object of a `price_threshold` alert: the three
properties `checkPriceThreshold` destructures. -/
structure PriceCondition where
  operator : Option String
  value : JsVal
  threshold_percent : JsVal

/-- `checkPriceThreshold`. -/
def checkPriceThreshold (cond : PriceCondition) (currentPrice : Int) : Bool :=
  if cond.threshold_percent.truthy && !cond.value.truthy then false
  else if !cond.value.truthy then false
  else
    match cond.operator.getD "" with
    | ">" => match jsToNumber cond.value with
             | some v => currentPrice > v
             | none => false
    | ">=" => match jsToNumber cond.value with
              | some v => currentPrice ≥ v
              | none => false
    | "<" => match jsToNumber cond.value with
             | some v => currentPrice < v
             | none => false
    | "<=" => match jsToNumber cond.value with
              | some v => currentPrice ≤ v
              | none => false
    | "=" => match cond.value with
             | .num v => currentPrice = v
             | _ => false
    | _ => false

/-- The condition object of a `fundamental_condition` alert. -/
structure FundamentalCondition where
  fundamental_metric : Option String
  fundamental_operator : Option String
  fundamental_value : JsVal

/-- A fetched fundamentals record: property lookup returning
`undefined` for missing keys. -/
def lookupProp : List (String × JsVal) → String → JsVal
  | [], _ => .undef
  | (k, v) :: rest, key => if k = key then v else lookupProp rest key

/-- `checkFundamentalCondition`. -/
def checkFundamentalCondition (cond : FundamentalCondition)
    (fundamentals : Option (List (String × JsVal))) : Bool :=
  if !strTruthy cond.fundamental_metric || !cond.fundamental_value.truthy ||
     fundamentals.isNone then false
  else
    let funds := fundamentals.getD []
    match jsToNumber (lookupProp funds (cond.fundamental_metric.getD "")) with
    | none => false
    | some actualValue =>
      match jsToNumber cond.fundamental_value with
      | none => false
      | some targetValue =>
        match cond.fundamental_operator.getD "" with
        | "above" => actualValue > targetValue
        | "below" => actualValue < targetValue
        | "equals" => actualValue = targetValue
        | _ => false

/-! #### The scheduler's rate-limiting state machine.

`processAlerts` loads the working set with
`is_active = true AND (last_triggered IS NULL OR last_triggered <
NOW() - INTERVAL '1 day')` and `triggerAlert` performs
`SET last_triggered = NOW(), trigger_count = trigger_count + 1`.
The model follows one subscription across scheduler cycles: `t` is the
cycle's `NOW()` (in seconds), the oracle abstracts the outcome of the
condition evaluation against the fetched data, and database writes are
assumed to succeed. -/

/-- The default rate-limit window (`INTERVAL '1 day'`, in seconds). -/
def rateLimitWindow : Int := 86400

/-- The per-subscription state the rate limiter reads and writes. -/
structure AlertSt where
  active : Bool
  lastTriggered : Option Int
  triggerCount : Nat

/-- The working-set membership test of `processAlerts`. -/
def selectable (W t : Int) (a : AlertSt) : Bool :=
  a.active &&
  (match a.lastTriggered with
   | none => true
   | some lt => lt < t - W)

/-- One scheduler cycle at time `t` for one subscription: if it is in
the working set and its condition evaluates to true, a notification is
emitted and `triggerAlert` updates `last_triggered` and
`trigger_count`. -/
def cycleStep (W : Int) (fires : Bool) (t : Int) (a : AlertSt) : AlertSt × List Int :=
  if selectable W t a && fires then
    ({ a with lastTriggered := some t, triggerCount := a.triggerCount + 1 }, [t])
  else (a, [])

/-- Run the scheduler over a list of cycle times, collecting the
notification times. -/
def runAlerts (W : Int) (oracle : Int → Bool) : List Int → AlertSt → AlertSt × List Int
  | [], a => (a, [])
  | t :: ts, a =>
    let s1 := cycleStep W (oracle t) t a
    let s2 := runAlerts W oracle ts s1.1
    (s2.1, s1.2 ++ s2.2)

end Alerts

/-! ### Concrete DSL documents used by the claims -/

/-- Shorthand for a plain comparison condition. -/
def cmpCond (f op : String) (v : Int) : Condition :=
  ⟨some f, some op, .num v, false, none, none⟩

/-- Wrap conditions in a `filter.and` document. -/
def andDSL (cs : List Condition) : DSL :=
  ⟨some (Filter.mk (.arr (cs.map Item.cond)) .absent .absent []), none, .undef⟩

/-- The logically unsatisfiable screen `pe_ratio > 50 AND pe_ratio < 5`. -/
def conflictDSL : DSL :=
  andDSL [cmpCond "pe_ratio" ">" 50, cmpCond "pe_ratio" "<" 5]

/-- An inverted `between` pair (`value[0] > value[1]`). -/
def betweenInvertedDSL : DSL :=
  andDSL [⟨some "pe_ratio", some "between", .arr [.num 50, .num 5], false, none, none⟩]

/-- An equal `between` pair. -/
def betweenEqualDSL : DSL :=
  andDSL [⟨some "pe_ratio", some "between", .arr [.num 5, .num 5], false, none, none⟩]

/-- A condition using the whitelisted operator `all_quarters`, which the
compiler's operator switch does not implement. -/
def allQuartersDSL : DSL :=
  andDSL [⟨some "pe_ratio", some "all_quarters", .num 5, false, none, none⟩]

/-- A well-formed filter nested to logical depth `n + 1`
(`nestedAnd 0` is one `and` level holding a plain condition). -/
def nestedAnd : Nat → Filter
  | 0 => Filter.mk (.arr [.cond (cmpCond "pe_ratio" "<" 15)]) .absent .absent []
  | n + 1 => Filter.mk (.arr [.sub (nestedAnd n)]) .absent .absent []

/-- A period of a type the spec admits (`last_n_years`) with an allowed
aggregation and `n` in range. -/
def lastNYearsDSL : DSL :=
  ⟨some (Filter.mk (.arr [.cond ⟨some "pe_ratio", some "<", .num 15, false,
      some ⟨some "last_n_years", .num 4, some "all"⟩, none⟩]) .absent .absent []),
   none, .undef⟩

/-! ### Literal erasure and the all-quarters test (for C1)

The claim that user-supplied literal values reach the SQL text only as
numbered placeholders is formalised as value-independence: replacing
every literal of a document by a fixed representative of the same shape
and truthiness leaves the emitted SQL text (and the required tables)
unchanged; only the parameter list differs. The representative keeps
array lengths (the `in` operator emits one placeholder per element),
truthiness (the `exists` operator chooses between `IS NULL` and
`IS NOT NULL`) and `undefined`-ness (indexing `undefined` throws). -/

mutual
/-- Replace a literal by a fixed representative of the same shape. -/
def eraseValue : JsVal → JsVal
  | .undef => .undef
  | .num k => .num (if k = 0 then 0 else 1)
  | .str s => .str (if s = "" then "" else "x")
  | .bool b => .bool b
  | .arr xs => .arr (eraseValues xs)

/-- Erase every element of an array value. -/
def eraseValues : List JsVal → List JsVal
  | [] => []
  | v :: rest => eraseValue v :: eraseValues rest
end

/-- Erase the period length literal. -/
def erasePeriod (p : Period) : Period :=
  { p with n := eraseValue p.n }

/-- Erase the literals of a condition: the comparison value (kept intact
for a cross-field comparison, where the value is a field name and not a
literal) and the period length. -/
def eraseCondition (c : Condition) : Condition :=
  { c with value := if c.value_is_field then c.value else eraseValue c.value,
           period := c.period.map erasePeriod }

mutual
/-- Erase every literal of a filter object. -/
def eraseFilter : Filter → Filter
  | .mk a o n extra => .mk (eraseSlot a) (eraseSlot o) (eraseSlot n) extra

/-- Erase under one logical key. -/
def eraseSlot : FSlot → FSlot
  | .absent => .absent
  | .notArr v => .notArr (eraseValue v)
  | .arr items => .arr (eraseItems items)

/-- Erase every element of a logical array. -/
def eraseItems : List Item → List Item
  | [] => []
  | i :: rest => eraseItem i :: eraseItems rest

/-- Erase one array element. -/
def eraseItem : Item → Item
  | .cond c => .cond (eraseCondition c)
  | .sub f => .sub (eraseFilter f)
  | .prim v => .prim (eraseValue v)
end

/-- Erase every user-supplied literal of a DSL document (the sort list
holds only field names and directions, no literals). -/
def eraseDSL (dsl : DSL) : DSL :=
  ⟨dsl.filter.map eraseFilter, dsl.sort, eraseValue dsl.limit⟩

mutual
/-- No condition of the filter uses the operator `all_quarters`. -/
def noAQFilter : Filter → Bool
  | .mk a o n _ => noAQSlot a && noAQSlot o && noAQSlot n

/-- No condition below the logical key uses `all_quarters`. -/
def noAQSlot : FSlot → Bool
  | .absent => true
  | .notArr _ => true
  | .arr items => noAQItems items

/-- No condition of the element list uses `all_quarters`. -/
def noAQItems : List Item → Bool
  | [] => true
  | i :: rest => noAQItem i && noAQItems rest

/-- No condition of the element uses `all_quarters`. -/
def noAQItem : Item → Bool
  | .cond c => c.operator != some "all_quarters"
  | .sub f => noAQFilter f
  | .prim _ => true
end

/-- No condition of the document uses the operator `all_quarters`. -/
def noAllQuarters (dsl : DSL) : Bool :=
  match dsl.filter with
  | none => true
  | some f => noAQFilter f

/-- Agreement of two compilation contexts on everything the emitted SQL
text can depend on: the parameter counter and the table set (the
parameter lists may differ). -/
def CtxEq (d d' : Ctx) : Prop :=
  d.counter = d'.counter ∧ d.tables = d'.tables

/-- Lockstep relation between two compilation results: same outcome,
same SQL text or error message, agreeing contexts. -/
def Lock : Except String (String × Ctx) → Except String (String × Ctx) → Prop
  | .ok (s, d), .ok (s', d') => s = s' ∧ CtxEq d d'
  | .error e, .error e' => e = e'
  | _, _ => False

/-- Lockstep relation for list-valued compilation results. -/
def LockL : Except String (List String × Ctx) → Except String (List String × Ctx) → Prop
  | .ok (ss, d), .ok (ss', d') => ss = ss' ∧ CtxEq d d'
  | .error e, .error e' => e = e'
  | _, _ => False

/-- The second value is the first one, or its erasure. -/
def ValRel (v w : JsVal) : Prop :=
  w = v ∨ w = eraseValue v

/-- The screen `roe > 15`, used to witness the amended C1. -/
def roeDSL : DSL :=
  andDSL [cmpCond "roe" ">" 15]

/-! ### Theorems for the claims -/

/-- C10: for `price_threshold` and `fundamental` alerts whose comparison
value is the number `0`, the evaluator's truthiness guards treat the
value as missing, so evaluation returns `triggered = false` whatever the
fetched quote price or fundamentals are. -/
theorem c10_zero_value_never_triggers :
    (∀ (op : Option String) (tp : JsVal) (price : Int),
       Alerts.checkPriceThreshold ⟨op, .num 0, tp⟩ price = false) ∧
    (∀ (m o : Option String) (f : Option (List (String × JsVal))),
       Alerts.checkFundamentalCondition ⟨m, o, .num 0⟩ f = false) := by
  constructor
  · intro op tp price
    cases htp : tp.truthy <;>
      simp [Alerts.checkPriceThreshold, JsVal.truthy, htp]
  · intro m o f
    simp [Alerts.checkFundamentalCondition, JsVal.truthy]

/-- C2: the validator accepts the unsatisfiable screen
`pe_ratio > 50 AND pe_ratio < 5` (no `LogicalConflict` detection exists)
and the compiler produces SQL for it, contradicting the documented
behaviour that such conflicts are rejected before compilation. -/
theorem c2_conflict_not_detected :
    validateErrors conflictDSL = [] ∧
    (compile (normalizeDSL conflictDSL)).isOk = true := by
  constructor <;> rfl

/-- C5: the validator has no nesting-depth check: it accepts well-formed
`and`-nested filters of every depth, in particular depth 6, which the
claim says must be rejected (depth-5 acceptance also follows). -/
theorem c5_any_depth_accepted :
    ∀ n : Nat, validateErrors ⟨some (nestedAnd n), none, .undef⟩ = [] := by
  intro n
  have h : ∀ m : Nat, filterErrors (nestedAnd m) = [] := by
    intro m
    induction m with
    | zero => rfl
    | succ k ih =>
      simp [nestedAnd, filterErrors, slotErrors, itemsErrors, itemErrors, ih]
  simp [validateErrors, h n, JsVal.isUndef]

/-- C7: the validator accepts a `between` pair with `value[0] > value[1]`
and one with equal endpoints (only array-ness and length 2 are checked),
and SQL is produced; the claim says such pairs are rejected. -/
theorem c7_between_order_not_checked :
    validateErrors betweenInvertedDSL = [] ∧
    validateErrors betweenEqualDSL = [] ∧
    (compile (normalizeDSL betweenInvertedDSL)).isOk = true := by
  refine ⟨rfl, rfl, rfl⟩

/-- C6 (counterexample): a period with `type` `last_n_years`, aggregation
`all` and `n = 4` satisfies the claim's acceptance conditions, yet the
validator rejects the condition (`period.type` must be exactly
`last_n_quarters`). -/
theorem c6_counterexample : validateErrors lastNYearsDSL ≠ [] := by
  decide

/-- C6 (amended): for a condition with a valid field, comparison
operator and numeric value, the validator accepts a `period` object
exactly when `period.type` is the string `last_n_quarters`, `period.n`
is a number in `[1, 20]`, and `period.aggregation` is absent, empty, or
one of `all`, `any`, `avg`, `sum`, `latest`. -/
theorem c6_amended (p : Period) :
    validateErrors ⟨some (Filter.mk (.arr [.cond ⟨some "pe_ratio", some "<",
        .num 15, false, some p, none⟩]) .absent .absent []), none, .undef⟩ = [] ↔
      (p.type = some "last_n_quarters" ∧
       (∃ k : Int, p.n = .num k ∧ 1 ≤ k ∧ k ≤ 20) ∧
       (match p.aggregation with
        | none => True
        | some a => a = "" ∨ a ∈ ALLOWED_AGGREGATIONS)) := by
  have hval : validateErrors ⟨some (Filter.mk (.arr [.cond ⟨some "pe_ratio", some "<",
      .num 15, false, some p, none⟩]) .absent .absent []), none, .undef⟩ =
      periodErrors p := by
    simp [validateErrors, filterErrors, slotErrors, itemsErrors, itemErrors,
      isCondition, strTruthy, condErrors, JsVal.isUndef, ALLOWED_FIELDS,
      ALLOWED_OPERATORS]
  rw [hval]
  unfold periodErrors
  constructor
  · intro h
    rcases List.append_eq_nil.mp h with ⟨h12, h3⟩
    rcases List.append_eq_nil.mp h12 with ⟨h1, h2⟩
    refine ⟨?_, ?_, ?_⟩
    · by_contra hne
      simp [hne] at h1
    · match hn : p.n with
      | .num k =>
        rw [hn] at h2
        by_cases hk : 1 ≤ k ∧ k ≤ 20
        · exact ⟨k, rfl, hk.1, hk.2⟩
        · simp [hk] at h2
      | .undef => rw [hn] at h2; simp at h2
      | .str s => rw [hn] at h2; simp at h2
      | .bool b => rw [hn] at h2; simp at h2
      | .arr xs => rw [hn] at h2; simp at h2
    · match ha : p.aggregation with
      | none => trivial
      | some a =>
        simp only [ha] at h3
        by_cases he : a = ""
        · exact Or.inl he
        · right
          by_cases hm : a ∈ ALLOWED_AGGREGATIONS
          · exact hm
          · exfalso
            have hc : ALLOWED_AGGREGATIONS.contains a = false := by
              simp [List.contains, List.elem_iff, hm]
            simp [he, hc] at h3
            exact hm h3
  · rintro ⟨h1, ⟨k, hk, hk1, hk20⟩, h3⟩
    rw [h1, hk]
    match ha : p.aggregation with
    | none => simp [hk1, hk20]
    | some a =>
      rw [ha] at h3
      rcases h3 with h3 | h3
      · simp [hk1, hk20, h3]
      · simp [hk1, hk20, List.contains, List.elem_iff.mpr h3]
        exact fun _ => h3

/-- C3: for a non-derived `fundamentals_quarterly` field with a period
of aggregation `all`, the compiler emits a `NOT EXISTS` correlated
subquery over the last N non-null rows (`ORDER BY id DESC`, `LIMIT` by
a placeholder) whose inner WHERE uses the logical inverse of the user's
operator (`>`↔`<=`, `<`↔`>=`, `=`↔`!=`), and pushes both the comparison
value and N as parameters. -/
theorem c3_period_all_not_exists
    (fname col op : String) (v nv : JsVal) (ptype : Option String) (ctx : Ctx)
    (hmap : FIELD_TABLE_MAP fname = some ⟨"fundamentals_quarterly", col, false⟩)
    (hsec : fname ≠ "sector") (hexc : fname ≠ "exchange") (hind : fname ≠ "industry")
    (hop : op ∈ ["<", ">", "<=", ">=", "=", "!="]) :
    invertOperator ">" = "<=" ∧ invertOperator "<" = ">=" ∧
    invertOperator ">=" = "<" ∧ invertOperator "<=" = ">" ∧
    invertOperator "=" = "!=" ∧ invertOperator "!=" = "=" ∧
    compileCondition ⟨some fname, some op, v, false,
        some ⟨ptype, nv, some "all"⟩, none⟩ ctx =
      .ok (joinWith " "
        [ "NOT EXISTS (",
          "  SELECT 1 FROM (",
          "    SELECT " ++ col ++ " FROM fundamentals_quarterly",
          "    WHERE ticker = c.ticker AND " ++ col ++ " IS NOT NULL",
          "    ORDER BY id DESC LIMIT " ++ ("$" ++ Nat.repr (ctx.counter + 1)),
          "  ) " ++ ("pq_" ++ Nat.repr ctx.counter),
          "  WHERE " ++ ("pq_" ++ Nat.repr ctx.counter) ++ "." ++ col ++ " " ++
            invertOperator op ++ " " ++ ("$" ++ Nat.repr ctx.counter),
          ")" ],
        { params := ctx.params ++ [v, nv], counter := ctx.counter + 2,
          tables := ctx.tables }) := by
  refine ⟨rfl, rfl, rfl, rfl, rfl, rfl, ?_⟩
  have hopx : op ≠ "exists" := by
    fin_cases hop <;> decide
  simp [compileCondition, hmap, hsec, hexc, hind, hopx,
    compilePeriodCondition, PERIOD_CAPABLE_TABLES, pushParam]

/-- Witness for C3 at `net_income > 0` over the last 4 quarters,
starting from the initial compilation context. -/
theorem c3_witness :
    FIELD_TABLE_MAP "net_income" =
      some ⟨"fundamentals_quarterly", "net_income", false⟩ ∧
    (">" ∈ ["<", ">", "<=", ">=", "=", "!="]) ∧
    compileCondition ⟨some "net_income", some ">", .num 0, false,
        some ⟨some "last_n_quarters", .num 4, some "all"⟩, none⟩ ⟨[], 1, ["companies"]⟩ =
      .ok ("NOT EXISTS (   SELECT 1 FROM (     SELECT net_income FROM fundamentals_quarterly     WHERE ticker = c.ticker AND net_income IS NOT NULL     ORDER BY id DESC LIMIT $2   ) pq_1   WHERE pq_1.net_income <= $1 )",
           ⟨[.num 0, .num 4], 3, ["companies"]⟩) := by
  refine ⟨rfl, by decide, ?_⟩
  have h := (c3_period_all_not_exists "net_income" "net_income" ">" (.num 0) (.num 4)
    (some "last_n_quarters") ⟨[], 1, ["companies"]⟩ rfl
    (by decide) (by decide) (by decide) (by decide)).2.2.2.2.2.2
  exact h.trans (by rfl)

/-- Soundness of the substring scanner: a successful `subOccurs` yields
a decomposition. -/
theorem subOccurs_decomp (needle : List Char) :
    ∀ hay : List Char, subOccurs hay needle = true →
      ∃ a b : List Char, hay = a ++ needle ++ b := by
  intro hay
  induction hay with
  | nil =>
    intro h
    simp [subOccurs] at h
    exact ⟨[], [], by simp [h]⟩
  | cons c t ih =>
    intro h
    simp only [subOccurs, Bool.or_eq_true] at h
    rcases h with h | h
    · rcases List.isPrefixOf_iff_prefix.mp h with ⟨b, hb⟩
      exact ⟨[], b, by simp [hb.symm]⟩
    · rcases ih h with ⟨a, b, hab⟩
      exact ⟨c :: a, b, by simp [hab]⟩

/-- A successful boolean substring test gives the substring relation. -/
theorem strContains_of_B (s sub : String) (h : strContainsB s sub = true) :
    StrContains s sub := by
  rcases subOccurs_decomp sub.toList s.toList h with ⟨a, b, hab⟩
  refine ⟨String.mk a, String.mk b, ?_⟩
  apply String.ext
  exact hab

/-! #### Structural decomposition of the emitted SQL text -/

/-- A nonempty string stays nonempty after appending. -/
theorem append_ne_empty_left (s t : String) (hs : s ≠ "") : s ++ t ≠ "" := by
  intro h
  apply hs
  have hl := congrArg String.length h
  rw [String.length_append] at hl
  have h0 : ("" : String).length = 0 := rfl
  rw [h0] at hl
  have hs0 : s.length = 0 := by omega
  cases s with
  | mk data =>
    cases data with
    | nil => rfl
    | cons c cs => simp [String.length] at hs0

/-- `joinWith` over a cons with a nonempty tail. -/
theorem joinWith_cons (sep x : String) (rest : List String) (h : rest ≠ []) :
    joinWith sep (x :: rest) = x ++ sep ++ joinWith sep rest := by
  cases rest with
  | nil => exact absurd rfl h
  | cons y ys => rfl

/-- `joinWith` of a cons always extends the head on the right. -/
theorem joinWith_cons_decomp (sep x : String) (xs : List String) :
    ∃ rest : String, joinWith sep (x :: xs) = x ++ rest := by
  cases xs with
  | nil => exact ⟨"", by simp [joinWith]⟩
  | cons y ys =>
    refine ⟨sep ++ joinWith sep (y :: ys), ?_⟩
    rw [joinWith_cons _ _ _ (by simp)]
    simp [String.append_assoc]

/-- `joinWith` distributes over append of nonempty lists. -/
theorem joinWith_append (sep : String) :
    ∀ xs ys : List String, xs ≠ [] → ys ≠ [] →
      joinWith sep (xs ++ ys) = joinWith sep xs ++ sep ++ joinWith sep ys := by
  intro xs
  induction xs with
  | nil => intro ys h _; exact absurd rfl h
  | cons x xs ih =>
    intro ys _ hy
    cases xs with
    | nil =>
      cases ys with
      | nil => exact absurd rfl hy
      | cons y ys => rfl
    | cons x2 xs2 =>
      have h1 : (x2 :: xs2) ++ ys ≠ [] := by simp
      rw [List.cons_append, joinWith_cons sep x ((x2 :: xs2) ++ ys) h1,
          joinWith_cons sep x (x2 :: xs2) (by simp),
          ih ys (by simp) hy]
      simp [String.append_assoc]

/-- The fundamentals table is always in the final required-table set. -/
theorem fq_mem_addTable (ctx : Ctx) :
    "fundamentals_quarterly" ∈ (addTable ctx "fundamentals_quarterly").tables := by
  unfold addTable
  by_cases h : ctx.tables.contains "fundamentals_quarterly"
  · simp [List.elem_iff.mp h]
  · have hm : "fundamentals_quarterly" ∉ ctx.tables := by
      intro hm
      exact h (List.elem_iff.mpr hm)
    simp [h, hm]

/-- With the fundamentals table required, the generated joins start
with the fundamentals LATERAL join. -/
theorem generateJoins_decomp (tables : List String)
    (h : "fundamentals_quarterly" ∈ tables) :
    ∃ rest : String, generateJoins tables = fqJoin ++ rest := by
  unfold generateJoins
  rw [if_pos (List.elem_iff.mpr h)]
  simp only [List.append_assoc, List.singleton_append]
  exact joinWith_cons_decomp _ _ _

/-- `fqJoin` is nonempty, hence so is any join string starting with it. -/
theorem generateJoins_ne_empty (tables : List String)
    (h : "fundamentals_quarterly" ∈ tables) : generateJoins tables ≠ "" := by
  obtain ⟨rest, hr⟩ := generateJoins_decomp tables h
  rw [hr]
  exact append_ne_empty_left _ _ (by decide)

/-- Joining the SQL lines after `filter(Boolean)` splits into the fixed
projection, the joins and the three trailing clauses. -/
theorem sql_lines_decomp (w ob lim : String) (joins : String) (hjoins : joins ≠ "") :
    joinWith "\n" ((selectLines ++ [joins] ++ [""] ++
      ["WHERE " ++ w, "ORDER BY " ++ ob, "LIMIT $" ++ lim]).filter
        (fun l => l != "")) =
    joinWith "\n" selectLines ++ "\n" ++ joins ++ "\n" ++
      ("WHERE " ++ w) ++ "\n" ++ ("ORDER BY " ++ ob) ++ "\n" ++
      ("LIMIT $" ++ lim) := by
  have hsel : selectLines.filter (fun l => l != "") = selectLines := by rfl
  have hj : (joins != "") = true := bne_iff_ne.mpr hjoins
  have hW : (("WHERE " ++ w) != "") = true :=
    bne_iff_ne.mpr (append_ne_empty_left _ _ (by decide))
  have hO : (("ORDER BY " ++ ob) != "") = true :=
    bne_iff_ne.mpr (append_ne_empty_left _ _ (by decide))
  have hL : (("LIMIT $" ++ lim) != "") = true :=
    bne_iff_ne.mpr (append_ne_empty_left _ _ (by decide))
  rw [List.filter_append, List.filter_append, List.filter_append, hsel]
  have h1 : ([joins].filter (fun l => l != "")) = [joins] := by
    simp [List.filter, hj]
  have h2 : ([""].filter (fun l => l != "") : List String) = [] := by rfl
  have h3 : ((["WHERE " ++ w, "ORDER BY " ++ ob, "LIMIT $" ++ lim]).filter
      (fun l => l != "")) = ["WHERE " ++ w, "ORDER BY " ++ ob, "LIMIT $" ++ lim] := by
    simp [List.filter, hW, hO, hL]
  rw [h1, h2, h3, List.append_nil, List.append_assoc,
      joinWith_append _ selectLines _ (by decide) (by simp),
      List.singleton_append,
      joinWith_cons _ _ _ (by simp)]
  simp [joinWith, String.append_assoc]

/-- The decomposition of a successful compilation's SQL text: the fixed
projection, the joins, then the `WHERE`, `ORDER BY` and `LIMIT` lines. -/
theorem compile_sql_decomp (dsl : DSL) (r : Compiled) (h : compile dsl = .ok r) :
    ∃ (w ob : String) (ctx1 : Ctx),
      compileFilterTop dsl.filter ⟨[], 1, ["companies"]⟩ = .ok (w, ctx1) ∧
      r.sql = joinWith "\n" selectLines ++ "\n" ++
        generateJoins (addTable (addTable ctx1 "price_history")
          "fundamentals_quarterly").tables ++ "\n" ++
        ("WHERE " ++ w) ++ "\n" ++ ("ORDER BY " ++ ob) ++ "\n" ++
        ("LIMIT $" ++ Nat.repr (addTable (addTable ctx1 "price_history")
          "fundamentals_quarterly").counter) := by
  simp only [compile] at h
  cases hw : compileFilterTop dsl.filter ⟨[], 1, ["companies"]⟩ with
  | error e =>
    rw [hw] at h
    simp [Bind.bind, Except.bind] at h
  | ok p =>
    obtain ⟨w, ctx1⟩ := p
    rw [hw] at h
    simp only [Bind.bind, Except.bind] at h
    have hfq : "fundamentals_quarterly" ∈
        (addTable (addTable ctx1 "price_history") "fundamentals_quarterly").tables :=
      fq_mem_addTable _
    have hjoins := generateJoins_ne_empty _ hfq
    cases hsort : dsl.sort with
    | none =>
      simp only [hsort, Pure.pure, Except.pure, Except.ok.injEq] at h
      refine ⟨w, "c.market_cap DESC NULLS LAST", ctx1, rfl, ?_⟩
      rw [← h]
      exact sql_lines_decomp _ _ _ _ hjoins
    | some items =>
      simp only [hsort] at h
      cases hcs : compileSort items with
      | error e =>
        simp only [hcs] at h
        exact absurd h (by simp)
      | ok ob =>
        simp only [hcs, Except.ok.injEq] at h
        refine ⟨w, ob, ctx1, rfl, ?_⟩
        rw [← h]
        exact sql_lines_decomp _ _ _ _ hjoins

/-- The substring relation is reflexive. -/
theorem strContains_self (s : String) : StrContains s s :=
  ⟨"", "", by apply String.ext; simp⟩

/-- Containment in the right part of an append. -/
theorem strContains_appL (s t sub : String) (h : StrContains t sub) :
    StrContains (s ++ t) sub := by
  obtain ⟨a, b, hab⟩ := h
  refine ⟨s ++ a, b, ?_⟩
  rw [hab]
  simp [String.append_assoc]

/-- Containment in the left part of an append. -/
theorem strContains_appR (s t sub : String) (h : StrContains s sub) :
    StrContains (s ++ t) sub := by
  obtain ⟨a, b, hab⟩ := h
  refine ⟨a, b ++ t, ?_⟩
  rw [hab]
  simp [String.append_assoc]

/-- C4: on the empty natural-language query the whole pipeline runs
without an internal error: the Translator returns the degenerate tree
`filter: {}` (no conditions), the Validator accepts it, and the
compiled SQL's WHERE clause is exactly `1=1` (the SQL text contains
`WHERE 1=1`). -/
theorem c4_empty_query_pipeline :
    NL.translateNLToDSL "" =
      ⟨some (Filter.mk .absent .absent .absent []), none, .undef⟩ ∧
    validateErrors (NL.translateNLToDSL "") = [] ∧
    compileFilterTop (normalizeDSL (NL.translateNLToDSL "")).filter
        ⟨[], 1, ["companies"]⟩ = .ok ("1=1", ⟨[], 1, ["companies"]⟩) ∧
    ∃ r, compile (normalizeDSL (NL.translateNLToDSL "")) = .ok r ∧
         StrContains r.sql "WHERE 1=1" := by
  refine ⟨rfl, rfl, rfl, ?_⟩
  cases hc : compile (normalizeDSL (NL.translateNLToDSL "")) with
  | error e =>
    have hok : (compile (normalizeDSL (NL.translateNLToDSL ""))).isOk = true := rfl
    rw [hc] at hok
    simp [Except.isOk, Except.toBool] at hok
  | ok r =>
    refine ⟨r, rfl, ?_⟩
    obtain ⟨w, ob, ctx1, hw, hsql⟩ := compile_sql_decomp _ _ hc
    rw [show compileFilterTop (normalizeDSL (NL.translateNLToDSL "")).filter
        ⟨[], 1, ["companies"]⟩ = .ok ("1=1", ⟨[], 1, ["companies"]⟩) from rfl] at hw
    have hw' := Except.ok.inj hw
    cases hw'
    rw [show ("WHERE " ++ "1=1" : String) = "WHERE 1=1" from rfl] at hsql
    rw [hsql]
    exact strContains_appR _ _ _ (strContains_appR _ _ _ (strContains_appR _ _ _
      (strContains_appR _ _ _ (strContains_appL _ _ _ (strContains_self _)))))

/-- C8: the query `current price below analyst target` translates to the
single cross-field condition `close < price_target_avg`
(`value_is_field: true`), and the compiled SQL contains the predicate
`ph.close < ae.price_target_avg` together with the LEFT LATERAL joins of
both `price_history` (`ph`) and `analyst_estimates` (`ae`). -/
theorem c8_price_below_target :
    NL.translateNLToDSL "current price below analyst target" =
      ⟨some (Filter.mk (.arr [.cond ⟨some "close", some "<",
          .str "price_target_avg", true, none, none⟩]) .absent .absent []),
       none, .undef⟩ ∧
    ∃ r, compile (normalizeDSL
          (NL.translateNLToDSL "current price below analyst target")) = .ok r ∧
      StrContains r.sql "ph.close < ae.price_target_avg" ∧
      StrContains r.sql phJoin ∧
      StrContains r.sql aeJoin := by
  refine ⟨rfl, ?_⟩
  cases hc : compile (normalizeDSL
      (NL.translateNLToDSL "current price below analyst target")) with
  | error e =>
    have hok : (compile (normalizeDSL
        (NL.translateNLToDSL "current price below analyst target"))).isOk = true := rfl
    rw [hc] at hok
    simp [Except.isOk, Except.toBool] at hok
  | ok r =>
    refine ⟨r, rfl, ?_⟩
    obtain ⟨w, ob, ctx1, hw, hsql⟩ := compile_sql_decomp _ _ hc
    rw [show compileFilterTop (normalizeDSL
        (NL.translateNLToDSL "current price below analyst target")).filter
        ⟨[], 1, ["companies"]⟩ =
      .ok ("ph.close < ae.price_target_avg",
           ⟨[], 1, ["companies", "price_history", "analyst_estimates"]⟩) from rfl] at hw
    have hw' := Except.ok.inj hw
    cases hw'
    rw [show generateJoins (addTable (addTable
        (⟨[], 1, ["companies", "price_history", "analyst_estimates"]⟩ : Ctx)
        "price_history") "fundamentals_quarterly").tables =
      fqJoin ++ "\n" ++ phJoin ++ "\n" ++ aeJoin from rfl] at hsql
    rw [hsql]
    refine ⟨?_, ?_, ?_⟩
    · have hpred : StrContains ("WHERE " ++ "ph.close < ae.price_target_avg")
          "ph.close < ae.price_target_avg" :=
        strContains_appL _ _ _ (strContains_self _)
      exact strContains_appR _ _ _ (strContains_appR _ _ _ (strContains_appR _ _ _
        (strContains_appR _ _ _ (strContains_appL _ _ _ hpred))))
    · have hj : StrContains (fqJoin ++ "\n" ++ phJoin ++ "\n" ++ aeJoin) phJoin :=
        strContains_appR _ _ _ (strContains_appR _ _ _
          (strContains_appL _ _ _ (strContains_self _)))
      exact strContains_appR _ _ _ (strContains_appR _ _ _ (strContains_appR _ _ _
        (strContains_appR _ _ _ (strContains_appR _ _ _ (strContains_appR _ _ _
          (strContains_appL _ _ _ hj))))))
    · have hj : StrContains (fqJoin ++ "\n" ++ phJoin ++ "\n" ++ aeJoin) aeJoin :=
        strContains_appL _ _ _ (strContains_self _)
      exact strContains_appR _ _ _ (strContains_appR _ _ _ (strContains_appR _ _ _
        (strContains_appR _ _ _ (strContains_appR _ _ _ (strContains_appR _ _ _
          (strContains_appL _ _ _ hj))))))

/-! #### Rate limiting of the alert scheduler (C9) -/

/-- In a separation chain, the head is more than `W` below every later
element (transitivity uses `0 ≤ W`). -/
theorem chain_sep_all (W : Int) (hW : 0 ≤ W) :
    ∀ (t : Int) (l : List Int), List.Chain' (fun x y => x + W < y) (t :: l) →
      ∀ n ∈ l, t + W < n := by
  intro t l
  induction l generalizing t with
  | nil => intro _ n hn; simp at hn
  | cons y ys ih =>
    intro hch n hn
    have h1 : t + W < y := (List.chain'_cons.mp hch).1
    rcases List.mem_cons.mp hn with hn | hn
    · subst hn; exact h1
    · have h2 := ih y (List.chain'_cons.mp hch).2 n hn
      omega

/-- The scheduler invariant: the emitted notification times are
separated by more than `W`, and all of them are more than `W` after the
stored `last_triggered` time. -/
theorem runAlerts_sep (W : Int) (hW : 0 ≤ W) (oracle : Int → Bool) :
    ∀ (ts : List Int) (a : Alerts.AlertSt),
      List.Chain' (fun x y => x + W < y) (Alerts.runAlerts W oracle ts a).2 ∧
      ∀ lt, a.lastTriggered = some lt →
        ∀ n ∈ (Alerts.runAlerts W oracle ts a).2, lt + W < n := by
  intro ts
  induction ts with
  | nil =>
    intro a
    refine ⟨List.chain'_nil, ?_⟩
    intro lt _ n hn
    simp [Alerts.runAlerts] at hn
  | cons t ts ih =>
    intro a
    by_cases hsel : (Alerts.selectable W t a && oracle t) = true
    · have hrun : (Alerts.runAlerts W oracle (t :: ts) a).2 =
          t :: (Alerts.runAlerts W oracle ts
            { a with lastTriggered := some t,
                     triggerCount := a.triggerCount + 1 }).2 := by
        simp [Alerts.runAlerts, Alerts.cycleStep, hsel]
      obtain ⟨ihc, ihl⟩ := ih { a with lastTriggered := some t,
                                       triggerCount := a.triggerCount + 1 }
      have hall := ihl t rfl
      constructor
      · rw [hrun]
        refine List.chain'_cons'.mpr ⟨?_, ihc⟩
        intro y hy
        exact hall y (List.mem_of_mem_head? hy)
      · intro lt hlt n hn
        have hs : Alerts.selectable W t a = true := by
          rw [Bool.and_eq_true] at hsel
          exact hsel.1
        have hlt2 : lt < t - W := by
          unfold Alerts.selectable at hs
          rw [hlt, Bool.and_eq_true] at hs
          simpa using hs.2
        rw [hrun] at hn
        rcases List.mem_cons.mp hn with hn | hn
        · subst hn; omega
        · have := hall n hn; omega
    · have hrun : Alerts.runAlerts W oracle (t :: ts) a =
          Alerts.runAlerts W oracle ts a := by
        simp [Alerts.runAlerts, Alerts.cycleStep, hsel]
      rw [hrun]
      exact ih a

/-- With separation more than `W`, any half-open window of length `W`
holds at most one element. -/
theorem window_count (W : Int) (hW : 0 ≤ W) (c : Int) :
    ∀ l : List Int, List.Chain' (fun x y => x + W < y) l →
      (l.filter (fun t => decide (c ≤ t) && decide (t < c + W))).length ≤ 1 := by
  intro l
  induction l with
  | nil => intro _; simp
  | cons t rest ih =>
    intro hch
    by_cases hin : (decide (c ≤ t) && decide (t < c + W)) = true
    · have hall := chain_sep_all W hW t rest hch
      have hct : c ≤ t := by
        rw [Bool.and_eq_true] at hin
        simpa using hin.1
      have hrest : rest.filter (fun n => decide (c ≤ n) && decide (n < c + W)) = [] := by
        apply List.filter_eq_nil_iff.mpr
        intro n hn
        have h1 := hall n hn
        simp only [Bool.and_eq_true, decide_eq_true_eq, not_and]
        intro _
        omega
      simp [List.filter_cons, hin, hrest]
    · have hch' := List.Chain'.tail hch
      simp only [List.filter_cons, hin, if_neg]
      simpa using ih hch'

/-- C9: within any single rate-limit window the scheduler emits at most
one notification per subscription: the working set only admits alerts
whose `last_triggered` is NULL or older than the window, and a trigger
stores the cycle time into `last_triggered` before the alert can be
selected again. Consequently all notification times are more than `W`
apart and any window `[c, c + W)` holds at most one of them. -/
theorem c9_rate_limit_window (W : Int) (oracle : Int → Bool) (ts : List Int)
    (a : Alerts.AlertSt) (c : Int) (hW : 0 ≤ W) :
    List.Chain' (fun x y => x + W < y) (Alerts.runAlerts W oracle ts a).2 ∧
    ((Alerts.runAlerts W oracle ts a).2.filter
      (fun t => decide (c ≤ t) && decide (t < c + W))).length ≤ 1 := by
  have h := runAlerts_sep W hW oracle ts a
  exact ⟨h.1, window_count W hW c _ h.1⟩

/-- Witness for C9: the default one-day window, an always-firing
condition, three cycles (two inside one day of each other). -/
theorem c9_witness :
    (0 ≤ Alerts.rateLimitWindow) ∧
    (List.Chain' (fun x y => x + Alerts.rateLimitWindow < y)
      (Alerts.runAlerts Alerts.rateLimitWindow (fun _ => true)
        [0, 60, 100000] ⟨true, none, 0⟩).2 ∧
    ((Alerts.runAlerts Alerts.rateLimitWindow (fun _ => true)
        [0, 60, 100000] ⟨true, none, 0⟩).2.filter
      (fun t => decide ((0 : Int) ≤ t) &&
                decide (t < 0 + Alerts.rateLimitWindow))).length ≤ 1) :=
  ⟨by decide, c9_rate_limit_window Alerts.rateLimitWindow (fun _ => true)
    [0, 60, 100000] ⟨true, none, 0⟩ 0 (by decide)⟩

/-! #### Value-independence of the emitted SQL (C1) -/

/-- Reduction of `Except` bind on a success value. -/
theorem eBind_ok {α β : Type} (a : α) (f : α → Except String β) :
    (Except.ok a >>= f) = f a := rfl

/-- Reduction of `Except` bind on an error. -/
theorem eBind_err {α β : Type} (e : String) (f : α → Except String β) :
    ((Except.error e : Except String α) >>= f) = .error e := rfl

/-- `isOk` means a success value exists. -/
theorem isOk_iff {α : Type} (x : Except String α) :
    x.isOk = true ↔ ∃ a, x = .ok a := by
  cases x <;> simp [Except.isOk, Except.toBool]

/-- Erasure preserves truthiness. -/
theorem eraseValue_truthy : ∀ v : JsVal, (eraseValue v).truthy = v.truthy := by
  intro v
  cases v with
  | undef => rfl
  | num k => by_cases h : k = 0 <;> simp [eraseValue, JsVal.truthy, h]
  | str s => by_cases h : s = "" <;> simp [eraseValue, JsVal.truthy, h]
  | bool b => rfl
  | arr xs => rfl

/-- Erasure preserves array lengths. -/
theorem eraseValues_length : ∀ xs : List JsVal, (eraseValues xs).length = xs.length := by
  intro xs
  induction xs with
  | nil => rfl
  | cons v rest ih => simp [eraseValues, ih]

/-- Erasure preserves being `undefined`. -/
theorem eraseValue_undef_iff : ∀ v : JsVal, eraseValue v = .undef ↔ v = .undef := by
  intro v
  cases v <;> simp [eraseValue]

/-- Related values have the same truthiness. -/
theorem ValRel.truthy_eq {v w : JsVal} (h : ValRel v w) : w.truthy = v.truthy := by
  rcases h with h | h
  · rw [h]
  · rw [h]; exact eraseValue_truthy v

/-- Related values agree on being `undefined`. -/
theorem ValRel.undef_iff {v w : JsVal} (h : ValRel v w) : w = .undef ↔ v = .undef := by
  rcases h with h | h
  · rw [h]
  · rw [h]; exact eraseValue_undef_iff v

theorem ctxEq_refl (d : Ctx) : CtxEq d d := ⟨rfl, rfl⟩

theorem ctxEq_addTable {d d' : Ctx} (h : CtxEq d d') (t : String) :
    CtxEq (addTable d t) (addTable d' t) := by
  obtain ⟨hc, ht⟩ := h
  unfold addTable
  rw [ht]
  by_cases hm : d'.tables.contains t = true
  · rw [if_pos hm, if_pos hm]
    exact ⟨hc, ht⟩
  · rw [if_neg hm, if_neg hm]
    exact ⟨hc, rfl⟩

theorem pushParam_lock {d d' : Ctx} (h : CtxEq d d') (v w : JsVal) :
    (pushParam d v).2 = (pushParam d' w).2 ∧
    CtxEq (pushParam d v).1 (pushParam d' w).1 := by
  obtain ⟨hc, ht⟩ := h
  unfold pushParam
  exact ⟨by rw [hc], ⟨by simp [hc], ht⟩⟩

/-- Indexing a defined value never throws. -/
theorem jsIndex_isOk : ∀ (v : JsVal) (i : Nat), v ≠ .undef → ∃ w, jsIndex v i = .ok w := by
  intro v i hv
  cases v with
  | undef => exact absurd rfl hv
  | num k => exact ⟨_, rfl⟩
  | str s => exact ⟨_, rfl⟩
  | bool b => exact ⟨_, rfl⟩
  | arr xs => exact ⟨_, rfl⟩

/-- The operator switch is in lockstep on related values: same SQL text,
same error message, agreeing contexts. -/
theorem compileOperator_lock (colRef : String) (c1 c2 : Condition)
    (hop : c2.operator = c1.operator) (hv : ValRel c1.value c2.value)
    {d d' : Ctx} (h : CtxEq d d') :
    Lock (compileOperator colRef c1 d) (compileOperator colRef c2 d') := by
  obtain ⟨hc, ht⟩ := h
  unfold compileOperator
  rw [hop]
  by_cases hcmp : c1.operator.getD "" = "<" ∨ c1.operator.getD "" = ">" ∨
      c1.operator.getD "" = "<=" ∨ c1.operator.getD "" = ">=" ∨
      c1.operator.getD "" = "=" ∨ c1.operator.getD "" = "!="
  · rw [if_pos hcmp, if_pos hcmp]
    simp [Lock, CtxEq, pushParam, hc, ht]
  · rw [if_neg hcmp, if_neg hcmp]
    by_cases hbet : c1.operator.getD "" = "between"
    · rw [if_pos hbet, if_pos hbet]
      by_cases hund : c1.value = JsVal.undef
      · have hund2 : c2.value = JsVal.undef := by
          rcases hv with hvv | hvv
          · rw [hvv, hund]
          · rw [hvv, hund]; rfl
        rw [hund, hund2]
        simp [Lock, jsIndex, eBind_err]
      · have hund2 : c2.value ≠ JsVal.undef := fun hx => hund (hv.undef_iff.mp hx)
        obtain ⟨w0, hw0⟩ := jsIndex_isOk c1.value 0 hund
        obtain ⟨w1, hw1⟩ := jsIndex_isOk c1.value 1 hund
        obtain ⟨u0, hu0⟩ := jsIndex_isOk c2.value 0 hund2
        obtain ⟨u1, hu1⟩ := jsIndex_isOk c2.value 1 hund2
        rw [hw0, hw1, hu0, hu1]
        simp [Lock, CtxEq, pushParam, hc, ht, eBind_ok]
    · rw [if_neg hbet, if_neg hbet]
      by_cases hinop : c1.operator.getD "" = "in"
      · rw [if_pos hinop, if_pos hinop]
        cases hvv : c1.value with
        | arr xs =>
          rcases hv with hrel | hrel
          · rw [hrel, hvv]
            simp [Lock, CtxEq, hc, ht]
          · rw [hrel, hvv]
            simp [Lock, CtxEq, hc, ht, eraseValue, eraseValues_length]
        | undef =>
          rcases hv with hrel | hrel <;> rw [hrel, hvv] <;> simp [Lock, eraseValue]
        | num k =>
          rcases hv with hrel | hrel <;> rw [hrel, hvv] <;> simp [Lock, eraseValue]
        | str s =>
          rcases hv with hrel | hrel <;> rw [hrel, hvv] <;> simp [Lock, eraseValue]
        | bool b =>
          rcases hv with hrel | hrel <;> rw [hrel, hvv] <;> simp [Lock, eraseValue]
      · rw [if_neg hinop, if_neg hinop]
        by_cases hex : c1.operator.getD "" = "exists"
        · rw [if_pos hex, if_pos hex]
          rw [hv.truthy_eq]
          by_cases htr : c1.value.truthy = true
          · exact ⟨rfl, hc, ht⟩
          · exact ⟨rfl, hc, ht⟩
        · rw [if_neg hex, if_neg hex]
          rfl

theorem eraseCondition_field (c : Condition) : (eraseCondition c).field = c.field := rfl

theorem eraseCondition_operator (c : Condition) :
    (eraseCondition c).operator = c.operator := rfl

theorem eraseCondition_vif (c : Condition) :
    (eraseCondition c).value_is_field = c.value_is_field := rfl

theorem eraseCondition_period (c : Condition) :
    (eraseCondition c).period = c.period.map erasePeriod := rfl

theorem eraseCondition_value (c : Condition) :
    (eraseCondition c).value =
      if c.value_is_field then c.value else eraseValue c.value := rfl

/-- The period compiler is in lockstep on related values. -/
theorem compilePeriodCondition_lock (c1 c2 : Condition) (p1 p2 : Period)
    (finfo : FieldInfo) (hop : c2.operator = c1.operator)
    (hv : ValRel c1.value c2.value) (hagg : p2.aggregation = p1.aggregation)
    {d d' : Ctx} (h : CtxEq d d') :
    Lock (compilePeriodCondition c1 p1 finfo d)
         (compilePeriodCondition c2 p2 finfo d') := by
  obtain ⟨hc, ht⟩ := h
  simp only [compilePeriodCondition, hop, hagg]
  by_cases hA : (match p1.aggregation with | none => "all" | some a => a) = "all"
  · simp only [hA]
    simp [Lock, CtxEq, pushParam, hc, ht]
  · simp only [if_neg hA]
    by_cases hAny : (match p1.aggregation with | none => "all" | some a => a) = "any"
    · simp only [hAny]
      simp [Lock, CtxEq, pushParam, hc, ht]
    · simp only [if_neg hAny]
      by_cases hAvg : ((match p1.aggregation with | none => "all" | some a => a) = "avg" ∨
          (match p1.aggregation with | none => "all" | some a => a) = "sum")
      · simp only [if_pos hAvg]
        simp [Lock, CtxEq, pushParam, hc, ht]
      · simp only [if_neg hAvg]
        exact compileOperator_lock _ c1 c2 hop hv (ctxEq_addTable ⟨hc, ht⟩ _)

/-- The single-row condition compiler is in lockstep on related values. -/
theorem compileCondRest_lock (c1 c2 : Condition) (finfo : FieldInfo)
    (hop : c2.operator = c1.operator) (hv : ValRel c1.value c2.value)
    {d d' : Ctx} (h : CtxEq d d') :
    Lock (compileCondRest c1 finfo d) (compileCondRest c2 finfo d') := by
  simp only [compileCondRest]
  by_cases hft : finfo.table = "fundamentals_quarterly"
  · simp only [if_pos hft]
    exact compileOperator_lock _ c1 c2 hop hv (ctxEq_addTable h _)
  · simp only [if_neg hft]
    exact compileOperator_lock _ c1 c2 hop hv (ctxEq_addTable h _)

/-- The condition compiler is in lockstep with its value-erased copy. -/
theorem compileCondition_lock (c : Condition) {d d' : Ctx} (h : CtxEq d d') :
    Lock (compileCondition c d) (compileCondition (eraseCondition c) d') := by
  unfold compileCondition
  rw [eraseCondition_field, eraseCondition_operator, eraseCondition_vif,
      eraseCondition_period]
  cases hmap : FIELD_TABLE_MAP (c.field.getD "") with
  | none => exact rfl
  | some finfo =>
    by_cases hvf : c.value_is_field = true
    · simp only [if_pos hvf, eraseCondition_value]
      cases hval : c.value with
      | str s =>
        dsimp only []
        cases hmap2 : FIELD_TABLE_MAP s with
        | none => exact rfl
        | some finfo2 => exact ⟨rfl, ctxEq_addTable (ctxEq_addTable h _) _⟩
      | undef => exact rfl
      | num k => exact rfl
      | bool b => exact rfl
      | arr xs => exact rfl
    · simp only [if_neg hvf]
      have hvrel : ValRel c.value (eraseCondition c).value := by
        rw [eraseCondition_value, if_neg hvf]
        exact Or.inr rfl
      by_cases hsec : (c.field.getD "" = "sector" ∨ c.field.getD "" = "exchange" ∨
          c.field.getD "" = "industry")
      · simp only [if_pos hsec]
        exact compileOperator_lock _ c (eraseCondition c)
          (eraseCondition_operator c) hvrel (ctxEq_addTable h _)
      · simp only [if_neg hsec]
        by_cases hdate : ((c.field.getD "" = "last_buyback_date" ∨
            c.field.getD "" = "next_earnings_date") ∧ c.operator = some "exists")
        · simp only [if_pos hdate]
          rw [show (eraseCondition c).value.truthy = c.value.truthy from
               ValRel.truthy_eq hvrel]
          by_cases htr : c.value.truthy = true
          · exact ⟨rfl, ctxEq_addTable h _⟩
          · exact ⟨rfl, ctxEq_addTable h _⟩
        · simp only [if_neg hdate]
          by_cases hder : finfo.derived = true
          · simp only [if_pos hder]
            exact compileOperator_lock _ c (eraseCondition c)
              (eraseCondition_operator c) hvrel (ctxEq_addTable h _)
          · simp only [if_neg hder]
            cases hp : c.period with
            | none =>
              exact compileCondRest_lock c (eraseCondition c) finfo
                (eraseCondition_operator c) hvrel h
            | some p =>
              simp only [Option.map_some]
              by_cases hcap : PERIOD_CAPABLE_TABLES.contains finfo.table = true
              · simp only [if_pos hcap]
                exact compilePeriodCondition_lock c (eraseCondition c) p
                  (erasePeriod p) finfo (eraseCondition_operator c) hvrel rfl h
              · simp only [if_neg hcap]
                exact compileCondRest_lock c (eraseCondition c) finfo
                  (eraseCondition_operator c) hvrel h

/-- Erasure preserves truthiness of a logical slot. -/
theorem fslotTruthy_erase : ∀ s : FSlot, fslotTruthy (eraseSlot s) = fslotTruthy s := by
  intro s
  cases s with
  | absent => rfl
  | notArr v => simp [eraseSlot, fslotTruthy, eraseValue_truthy]
  | arr items => rfl

/-- Erasure preserves the `_isCondition` test. -/
theorem isCondition_erase (c : Condition) :
    isCondition (eraseCondition c) = isCondition c := rfl

mutual
/-- The filter compiler is in lockstep with its value-erased copy. -/
theorem compileFilterF_lock : ∀ (f : Filter) (d d' : Ctx), CtxEq d d' →
    Lock (compileFilterF f d) (compileFilterF (eraseFilter f) d')
  | .mk a o n extra, d, d', h => by
    simp only [compileFilterF, eraseFilter, fslotTruthy_erase]
    by_cases hta : fslotTruthy a = true
    · simp only [if_pos hta]
      exact compileSlotLogical_lock a "AND" d d' h
    · simp only [if_neg hta]
      by_cases hto : fslotTruthy o = true
      · simp only [if_pos hto]
        exact compileSlotLogical_lock o "OR" d d' h
      · simp only [if_neg hto]
        by_cases htn : fslotTruthy n = true
        · simp only [if_pos htn]
          exact ⟨rfl, h⟩
        · simp only [if_neg htn]
          exact ⟨rfl, h⟩

/-- The logical-array compiler is in lockstep with its erased copy. -/
theorem compileSlotLogical_lock : ∀ (s : FSlot) (j : String) (d d' : Ctx), CtxEq d d' →
    Lock (compileSlotLogical s j d) (compileSlotLogical (eraseSlot s) j d')
  | .absent, j, d, d', h => rfl
  | .notArr v, j, d, d', h => rfl
  | .arr items, j, d, d', h => by
    simp only [compileSlotLogical, eraseSlot]
    have h1 := compileItemList_lock items d d' h
    cases hx : compileItemList items d with
    | error e =>
      cases hy : compileItemList (eraseItems items) d' with
      | error e2 =>
        rw [hx, hy] at h1
        simp only [eBind_err]
        exact h1
      | ok q =>
        rw [hx, hy] at h1
        exact False.elim h1
    | ok p =>
      obtain ⟨parts, ctx1⟩ := p
      cases hy : compileItemList (eraseItems items) d' with
      | error e2 =>
        rw [hx, hy] at h1
        exact False.elim h1
      | ok q =>
        obtain ⟨parts2, ctx1'⟩ := q
        rw [hx, hy] at h1
        obtain ⟨hparts, hctx⟩ : parts = parts2 ∧ CtxEq ctx1 ctx1' := h1
        simp only [eBind_ok]
        rw [hparts]
        by_cases hj : j = "OR"
        · simp only [if_pos hj]
          exact ⟨rfl, hctx⟩
        · simp only [if_neg hj]
          exact ⟨rfl, hctx⟩

/-- Element lists compile in lockstep with their erased copies. -/
theorem compileItemList_lock : ∀ (its : List Item) (d d' : Ctx), CtxEq d d' →
    LockL (compileItemList its d) (compileItemList (eraseItems its) d')
  | [], d, d', h => ⟨rfl, h⟩
  | i :: rest, d, d', h => by
    simp only [compileItemList, eraseItems]
    have h1 := compileItem_lock i d d' h
    cases hx : compileItem i d with
    | error e =>
      cases hy : compileItem (eraseItem i) d' with
      | error e2 =>
        rw [hx, hy] at h1
        simp only [eBind_err]
        exact h1
      | ok q =>
        rw [hx, hy] at h1
        exact False.elim h1
    | ok p =>
      obtain ⟨s, ctx1⟩ := p
      cases hy : compileItem (eraseItem i) d' with
      | error e2 =>
        rw [hx, hy] at h1
        exact False.elim h1
      | ok q =>
        obtain ⟨s2, ctx1'⟩ := q
        rw [hx, hy] at h1
        obtain ⟨hs, hctx⟩ : s = s2 ∧ CtxEq ctx1 ctx1' := h1
        simp only [eBind_ok]
        have h2 := compileItemList_lock rest ctx1 ctx1' hctx
        cases hx2 : compileItemList rest ctx1 with
        | error e3 =>
          cases hy2 : compileItemList (eraseItems rest) ctx1' with
          | error e4 =>
            rw [hx2, hy2] at h2
            simp only [eBind_err]
            exact h2
          | ok q2 =>
            rw [hx2, hy2] at h2
            exact False.elim h2
        | ok p2 =>
          obtain ⟨ss, ctx2⟩ := p2
          cases hy2 : compileItemList (eraseItems rest) ctx1' with
          | error e4 =>
            rw [hx2, hy2] at h2
            exact False.elim h2
          | ok q2 =>
            obtain ⟨ss2, ctx2'⟩ := q2
            rw [hx2, hy2] at h2
            obtain ⟨hss, hctx2⟩ : ss = ss2 ∧ CtxEq ctx2 ctx2' := h2
            simp only [eBind_ok]
            exact ⟨by rw [hs, hss], hctx2⟩

/-- One element compiles in lockstep with its erased copy. -/
theorem compileItem_lock : ∀ (i : Item) (d d' : Ctx), CtxEq d d' →
    Lock (compileItem i d) (compileItem (eraseItem i) d')
  | .cond c, d, d', h => by
    simp only [compileItem, eraseItem, isCondition_erase]
    by_cases hic : isCondition c = true
    · simp only [if_pos hic]
      exact compileCondition_lock c h
    · simp only [if_neg hic]
      exact ⟨rfl, h⟩
  | .sub f, d, d', h => by
    simp only [compileItem, eraseItem]
    have h1 := compileFilterF_lock f d d' h
    cases hx : compileFilterF f d with
    | error e =>
      cases hy : compileFilterF (eraseFilter f) d' with
      | error e2 =>
        rw [hx, hy] at h1
        simp only [eBind_err]
        exact h1
      | ok q =>
        rw [hx, hy] at h1
        exact False.elim h1
    | ok p =>
      obtain ⟨s, ctx1⟩ := p
      cases hy : compileFilterF (eraseFilter f) d' with
      | error e2 =>
        rw [hx, hy] at h1
        exact False.elim h1
      | ok q =>
        obtain ⟨s2, ctx1'⟩ := q
        rw [hx, hy] at h1
        obtain ⟨hs, hctx⟩ : s = s2 ∧ CtxEq ctx1 ctx1' := h1
        simp only [eBind_ok]
        exact ⟨by rw [hs], hctx⟩
  | .prim v, d, d', h => ⟨rfl, h⟩
end

/-- Every whitelisted field has a `FIELD_TABLE_MAP` entry. -/
theorem allowed_field_mapped : ∀ f ∈ ALLOWED_FIELDS, (FIELD_TABLE_MAP f).isSome = true := by
  decide

/-- The operator switch succeeds on every whitelisted operator except
`all_quarters`, given the value shapes the validator enforces. -/
theorem compileOperator_ok (colRef : String) (c : Condition) (d : Ctx)
    (hcmp : c.operator.getD "" = "<" ∨ c.operator.getD "" = ">" ∨
            c.operator.getD "" = "<=" ∨ c.operator.getD "" = ">=" ∨
            c.operator.getD "" = "=" ∨ c.operator.getD "" = "!=" ∨
            c.operator.getD "" = "between" ∨ c.operator.getD "" = "in" ∨
            c.operator.getD "" = "exists")
    (hbet : c.operator.getD "" = "between" → c.value ≠ JsVal.undef)
    (hin : c.operator.getD "" = "in" → ∃ xs, c.value = JsVal.arr xs) :
    (compileOperator colRef c d).isOk = true := by
  unfold compileOperator
  rcases hcmp with h | h | h | h | h | h | h | h | h
  · simp [h, pushParam, Except.isOk, Except.toBool]
  · simp [h, pushParam, Except.isOk, Except.toBool]
  · simp [h, pushParam, Except.isOk, Except.toBool]
  · simp [h, pushParam, Except.isOk, Except.toBool]
  · simp [h, pushParam, Except.isOk, Except.toBool]
  · simp [h, pushParam, Except.isOk, Except.toBool]
  · obtain ⟨x0, h0⟩ := jsIndex_isOk c.value 0 (hbet h)
    obtain ⟨x1, h1⟩ := jsIndex_isOk c.value 1 (hbet h)
    simp [h, h0, h1, eBind_ok, pushParam, Except.isOk, Except.toBool]
  · obtain ⟨xs, hxs⟩ := hin h
    simp [h, hxs, Except.isOk, Except.toBool]
  · simp [h, Except.isOk, Except.toBool]

/-- The period compiler succeeds under the same operator hypotheses. -/
theorem compilePeriodCondition_ok (c : Condition) (p : Period) (finfo : FieldInfo)
    (d : Ctx)
    (hcmp : c.operator.getD "" = "<" ∨ c.operator.getD "" = ">" ∨
            c.operator.getD "" = "<=" ∨ c.operator.getD "" = ">=" ∨
            c.operator.getD "" = "=" ∨ c.operator.getD "" = "!=" ∨
            c.operator.getD "" = "between" ∨ c.operator.getD "" = "in" ∨
            c.operator.getD "" = "exists")
    (hbet : c.operator.getD "" = "between" → c.value ≠ JsVal.undef)
    (hin : c.operator.getD "" = "in" → ∃ xs, c.value = JsVal.arr xs) :
    (compilePeriodCondition c p finfo d).isOk = true := by
  unfold compilePeriodCondition
  by_cases hA : (match p.aggregation with | none => "all" | some a => a) = "all"
  · simp [hA, pushParam, Except.isOk, Except.toBool]
  · simp only [if_neg hA]
    by_cases hAny : (match p.aggregation with | none => "all" | some a => a) = "any"
    · simp [hAny, pushParam, Except.isOk, Except.toBool]
    · simp only [if_neg hAny]
      by_cases hAvg : ((match p.aggregation with | none => "all" | some a => a) = "avg" ∨
          (match p.aggregation with | none => "all" | some a => a) = "sum")
      · simp only [if_pos hAvg]
        simp [pushParam, Except.isOk, Except.toBool]
      · simp only [if_neg hAvg]
        exact compileOperator_ok _ c _ hcmp hbet hin

/-- The single-row condition compiler succeeds under the same hypotheses. -/
theorem compileCondRest_ok (c : Condition) (finfo : FieldInfo) (d : Ctx)
    (hcmp : c.operator.getD "" = "<" ∨ c.operator.getD "" = ">" ∨
            c.operator.getD "" = "<=" ∨ c.operator.getD "" = ">=" ∨
            c.operator.getD "" = "=" ∨ c.operator.getD "" = "!=" ∨
            c.operator.getD "" = "between" ∨ c.operator.getD "" = "in" ∨
            c.operator.getD "" = "exists")
    (hbet : c.operator.getD "" = "between" → c.value ≠ JsVal.undef)
    (hin : c.operator.getD "" = "in" → ∃ xs, c.value = JsVal.arr xs) :
    (compileCondRest c finfo d).isOk = true := by
  unfold compileCondRest
  by_cases hft : finfo.table = "fundamentals_quarterly"
  · simp only [if_pos hft]
    exact compileOperator_ok _ c _ hcmp hbet hin
  · simp only [if_neg hft]
    exact compileOperator_ok _ c _ hcmp hbet hin

theorem normCondition_field (c : Condition) : (normCondition c).field = c.field := by
  unfold normCondition
  cases c.timeframe <;> cases c.period <;> rfl

theorem normCondition_operator (c : Condition) :
    (normCondition c).operator = c.operator := by
  unfold normCondition
  cases c.timeframe <;> cases c.period <;> rfl

theorem normCondition_value (c : Condition) : (normCondition c).value = c.value := by
  unfold normCondition
  cases c.timeframe <;> cases c.period <;> rfl

theorem normCondition_vif (c : Condition) :
    (normCondition c).value_is_field = c.value_is_field := by
  unfold normCondition
  cases c.timeframe <;> cases c.period <;> rfl

theorem fslotTruthy_norm : ∀ s : FSlot, fslotTruthy (normSlot s) = fslotTruthy s := by
  intro s
  cases s <;> rfl

theorem isCondition_norm (c : Condition) : isCondition (normCondition c) = isCondition c := by
  unfold isCondition
  rw [normCondition_field, normCondition_operator]

/-- A condition the validator accepts compiles successfully, unless it
uses the operator `all_quarters`. -/
theorem compileCondition_ok (c : Condition) (hce : condErrors c = [])
    (hnq : c.operator ≠ some "all_quarters") (d : Ctx) :
    (compileCondition (normCondition c) d).isOk = true := by
  unfold condErrors at hce
  rw [List.append_eq_nil] at hce
  obtain ⟨hce, h5⟩ := hce
  rw [List.append_eq_nil] at hce
  obtain ⟨hce, h4⟩ := hce
  rw [List.append_eq_nil] at hce
  obtain ⟨hce, h3⟩ := hce
  rw [List.append_eq_nil] at hce
  obtain ⟨h1, h2⟩ := hce
  have hfT : strTruthy c.field = true := by
    cases hft : strTruthy c.field
    · simp [hft] at h1
    · rfl
  have hfmem : c.field.getD "" ∈ ALLOWED_FIELDS := by
    simpa [hfT] using h1
  have hoT : strTruthy c.operator = true := by
    cases hot : strTruthy c.operator
    · simp [hot] at h2
    · rfl
  have homem : c.operator.getD "" ∈ ALLOWED_OPERATORS := by
    simpa [hoT] using h2
  obtain ⟨opv, hopeq⟩ : ∃ s, c.operator = some s := by
    cases ho : c.operator
    · rw [ho] at hoT
      exact absurd hoT (by simp [strTruthy])
    · exact ⟨_, rfl⟩
  have hgd : c.operator.getD "" = opv := by rw [hopeq]; rfl
  have hop9 : opv = "<" ∨ opv = ">" ∨ opv = "<=" ∨ opv = ">=" ∨
      opv = "=" ∨ opv = "!=" ∨ opv = "between" ∨ opv = "in" ∨ opv = "exists" := by
    rw [hgd] at homem
    have hmem : opv ∈ ALLOWED_OPERATORS := homem
    have hnaq : opv ≠ "all_quarters" := by
      intro hx
      exact hnq (by rw [hopeq, hx])
    simp only [ALLOWED_OPERATORS, List.mem_cons, List.mem_singleton] at hmem
    tauto
  obtain ⟨finfo, hfi⟩ : ∃ finfo, FIELD_TABLE_MAP (c.field.getD "") = some finfo :=
    Option.isSome_iff_exists.mp (allowed_field_mapped _ hfmem)
  unfold compileCondition
  rw [normCondition_field, normCondition_operator, normCondition_vif]
  simp only [hfi]
  by_cases hvf : c.value_is_field = true
  · simp only [if_pos hvf]
    rw [normCondition_value]
    obtain ⟨s, hs, hsc⟩ : ∃ s, c.value = JsVal.str s ∧
        ALLOWED_FIELDS.contains s = true := by
      simp only [if_pos hvf] at h4
      cases hvv : c.value with
      | str s =>
        rw [hvv] at h4
        dsimp only [] at h4
        cases hc3 : ALLOWED_FIELDS.contains s
        · rw [hc3] at h4
          simp at h4
        · exact ⟨s, rfl, hc3⟩
      | undef => rw [hvv] at h4; simp at h4
      | num k => rw [hvv] at h4; simp at h4
      | bool b => rw [hvv] at h4; simp at h4
      | arr xs => rw [hvv] at h4; simp at h4
    rw [hs]
    obtain ⟨finfo2, hfi2⟩ : ∃ finfo2, FIELD_TABLE_MAP s = some finfo2 := by
      have hmem : s ∈ ALLOWED_FIELDS := by
        simpa [List.contains, List.elem_iff] using hsc
      exact Option.isSome_iff_exists.mp (allowed_field_mapped _ hmem)
    simp only [hfi2]
    rfl
  · simp only [if_neg hvf]
    have hvff : c.value_is_field = false := by
      cases hvv : c.value_is_field
      · rfl
      · exact absurd hvv hvf
    have hbetv : opv = "between" → c.value ≠ JsVal.undef := by
      intro hb hvu
      rw [hb] at hopeq
      simp only [hvff, hopeq, hvu] at h4
      simp at h4
    have hinv : opv = "in" → ∃ xs, c.value = JsVal.arr xs := by
      intro hb
      rw [hb] at hopeq
      simp only [hvff, hopeq] at h4
      cases hvv : c.value with
      | arr xs => exact ⟨xs, rfl⟩
      | undef => rw [hvv] at h4; simp at h4
      | num k => rw [hvv] at h4; simp at h4
      | str s2 => rw [hvv] at h4; simp at h4
      | bool b => rw [hvv] at h4; simp at h4
    have hcmpN : (normCondition c).operator.getD "" = "<" ∨
        (normCondition c).operator.getD "" = ">" ∨
        (normCondition c).operator.getD "" = "<=" ∨
        (normCondition c).operator.getD "" = ">=" ∨
        (normCondition c).operator.getD "" = "=" ∨
        (normCondition c).operator.getD "" = "!=" ∨
        (normCondition c).operator.getD "" = "between" ∨
        (normCondition c).operator.getD "" = "in" ∨
        (normCondition c).operator.getD "" = "exists" := by
      rw [normCondition_operator, hgd]
      exact hop9
    have hbetN : (normCondition c).operator.getD "" = "between" →
        (normCondition c).value ≠ JsVal.undef := by
      rw [normCondition_operator, normCondition_value, hgd]
      exact hbetv
    have hinN : (normCondition c).operator.getD "" = "in" →
        ∃ xs, (normCondition c).value = JsVal.arr xs := by
      rw [normCondition_operator, normCondition_value, hgd]
      exact hinv
    by_cases hsec : (c.field.getD "" = "sector" ∨ c.field.getD "" = "exchange" ∨
        c.field.getD "" = "industry")
    · simp only [if_pos hsec]
      exact compileOperator_ok _ (normCondition c) _ hcmpN hbetN hinN
    · simp only [if_neg hsec]
      by_cases hdate : ((c.field.getD "" = "last_buyback_date" ∨
          c.field.getD "" = "next_earnings_date") ∧ c.operator = some "exists")
      · simp only [if_pos hdate]
        rfl
      · simp only [if_neg hdate]
        by_cases hder : finfo.derived = true
        · simp only [if_pos hder]
          exact compileOperator_ok _ (normCondition c) _ hcmpN hbetN hinN
        · simp only [if_neg hder]
          cases hpn : (normCondition c).period with
          | none =>
            exact compileCondRest_ok (normCondition c) finfo _ hcmpN hbetN hinN
          | some p =>
            dsimp only []
            by_cases hcap : PERIOD_CAPABLE_TABLES.contains finfo.table = true
            · simp only [if_pos hcap]
              exact compilePeriodCondition_ok (normCondition c) p finfo _ hcmpN hbetN hinN
            · simp only [if_neg hcap]
              exact compileCondRest_ok (normCondition c) finfo _ hcmpN hbetN hinN

mutual
/-- A filter the validator accepts compiles successfully when no
condition uses `all_quarters`. -/
theorem compileFilterF_ok : ∀ (f : Filter), filterErrors f = [] → noAQFilter f = true →
    ∀ d : Ctx, (compileFilterF (normFilter f) d).isOk = true
  | .mk a o n extra, he, hq, d => by
    rw [filterErrors, List.append_eq_nil] at he
    obtain ⟨he, _⟩ := he
    rw [List.append_eq_nil] at he
    obtain ⟨he, hn⟩ := he
    rw [List.append_eq_nil] at he
    obtain ⟨ha, ho⟩ := he
    rw [noAQFilter, Bool.and_eq_true] at hq
    obtain ⟨hq, hqn⟩ := hq
    rw [Bool.and_eq_true] at hq
    obtain ⟨hqa, hqo⟩ := hq
    simp only [normFilter, compileFilterF, fslotTruthy_norm]
    by_cases hta : fslotTruthy a = true
    · simp only [if_pos hta]
      exact compileSlotLogical_ok a "and" ha hqa "AND" d hta
    · simp only [if_neg hta]
      by_cases hto : fslotTruthy o = true
      · simp only [if_pos hto]
        exact compileSlotLogical_ok o "or" ho hqo "OR" d hto
      · simp only [if_neg hto]
        by_cases htn : fslotTruthy n = true
        · simp only [if_pos htn]
          rfl
        · simp only [if_neg htn]
          rfl

/-- A truthy logical slot the validator accepts compiles successfully. -/
theorem compileSlotLogical_ok : ∀ (s : FSlot) (key : String), slotErrors key s = [] →
    noAQSlot s = true → ∀ (j : String) (d : Ctx), fslotTruthy s = true →
    (compileSlotLogical (normSlot s) j d).isOk = true
  | .absent, key, he, hq, j, d, htr => by simp [fslotTruthy] at htr
  | .notArr v, key, he, hq, j, d, htr => by simp [slotErrors] at he
  | .arr items, key, he, hq, j, d, htr => by
    rw [slotErrors] at he
    rw [noAQSlot] at hq
    simp only [normSlot, compileSlotLogical]
    have h1 := compileItemList_ok items he hq d
    obtain ⟨⟨parts, ctx1⟩, hp⟩ := (isOk_iff _).mp h1
    rw [hp]
    simp [eBind_ok, Except.isOk, Except.toBool]

/-- A valid element list compiles successfully. -/
theorem compileItemList_ok : ∀ (its : List Item), itemsErrors its = [] →
    noAQItems its = true → ∀ d : Ctx, (compileItemList (normItems its) d).isOk = true
  | [], he, hq, d => rfl
  | i :: rest, he, hq, d => by
    rw [itemsErrors, List.append_eq_nil] at he
    obtain ⟨hei, her⟩ := he
    rw [noAQItems, Bool.and_eq_true] at hq
    obtain ⟨hqi, hqr⟩ := hq
    simp only [normItems, compileItemList]
    have h1 := compileItem_ok i hei hqi d
    obtain ⟨⟨s, ctx1⟩, hp⟩ := (isOk_iff _).mp h1
    rw [hp]
    simp only [eBind_ok]
    have h2 := compileItemList_ok rest her hqr ctx1
    obtain ⟨⟨ss, ctx2⟩, hp2⟩ := (isOk_iff _).mp h2
    simp [hp2, eBind_ok, Except.isOk, Except.toBool]

/-- A valid element compiles successfully. -/
theorem compileItem_ok : ∀ (i : Item), itemErrors i = [] → noAQItem i = true →
    ∀ d : Ctx, (compileItem (normItem i) d).isOk = true
  | .cond c, he, hq, d => by
    rw [itemErrors] at he
    rw [noAQItem] at hq
    simp only [normItem, compileItem, isCondition_norm]
    by_cases hic : isCondition c = true
    · simp only [if_pos hic]
      simp only [if_pos hic] at he
      exact compileCondition_ok c he (by simpa using hq) d
    · simp only [if_neg hic]
      rfl
  | .sub f, he, hq, d => by
    rw [itemErrors] at he
    rw [noAQItem] at hq
    simp only [normItem, compileItem]
    have h1 := compileFilterF_ok f he hq d
    obtain ⟨⟨s, ctx1⟩, hp⟩ := (isOk_iff _).mp h1
    rw [hp]
    simp [eBind_ok, Except.isOk, Except.toBool]
  | .prim v, he, hq, d => by simp [itemErrors] at he
end

/-- A sort list the validator accepts compiles successfully. -/
theorem compileSortItems_isOk : ∀ (items : List SortItem), sortErrors items = [] →
    (compileSortItems items).isOk = true
  | [], h => rfl
  | s :: rest, h => by
    have hsplit : sortItemErrors s ++ sortErrors rest = [] := h
    rw [List.append_eq_nil] at hsplit
    obtain ⟨h1, h2⟩ := hsplit
    rw [sortItemErrors, List.append_eq_nil] at h1
    obtain ⟨h1a, _⟩ := h1
    have hfT : strTruthy s.field = true := by
      cases hft : strTruthy s.field
      · simp [hft] at h1a
      · rfl
    have hfmem : s.field.getD "" ∈ ALLOWED_FIELDS := by
      simpa [hfT] using h1a
    obtain ⟨finfo, hfi⟩ : ∃ finfo, FIELD_TABLE_MAP (s.field.getD "") = some finfo :=
      Option.isSome_iff_exists.mp (allowed_field_mapped _ hfmem)
    simp only [compileSortItems, hfi]
    have h3 := compileSortItems_isOk rest h2
    obtain ⟨parts, hp⟩ := (isOk_iff _).mp h3
    simp [hp, eBind_ok, Except.isOk, Except.toBool]

/-- Reduction of `Except` bind on a `pure` value. -/
theorem ePure_bind {α β : Type} (a : α) (f : α → Except String β) :
    ((pure a : Except String α) >>= f) = f a := rfl

/-- Explicit form of a successful `compile` run without a sort list. -/
theorem compile_ok_build_none (dsl : DSL) (f : Filter) (w : String) (ctx1 : Ctx)
    (hf : dsl.filter = some f)
    (hw : compileFilterF f ⟨[], 1, ["companies"]⟩ = .ok (w, ctx1))
    (hs : dsl.sort = none) :
    compile dsl = .ok
      ⟨joinWith "\n" ((selectLines ++
          [generateJoins (addTable (addTable ctx1 "price_history")
            "fundamentals_quarterly").tables] ++ [""] ++
          ["WHERE " ++ w, "ORDER BY " ++ "c.market_cap DESC NULLS LAST",
           "LIMIT $" ++ Nat.repr (addTable (addTable ctx1 "price_history")
            "fundamentals_quarterly").counter]).filter (fun l => l != "")),
       (addTable (addTable ctx1 "price_history") "fundamentals_quarterly").params ++
         [if dsl.limit.truthy then dsl.limit else JsVal.num 100],
       (addTable (addTable ctx1 "price_history") "fundamentals_quarterly").tables⟩ := by
  simp only [compile, hf, compileFilterTop, hw, hs, eBind_ok, ePure_bind]

/-- Explicit form of a successful `compile` run with a sort list. -/
theorem compile_ok_build_some (dsl : DSL) (f : Filter) (w : String) (ctx1 : Ctx)
    (items : List SortItem) (ob : String)
    (hf : dsl.filter = some f)
    (hw : compileFilterF f ⟨[], 1, ["companies"]⟩ = .ok (w, ctx1))
    (hs : dsl.sort = some items)
    (hob : compileSort items = .ok ob) :
    compile dsl = .ok
      ⟨joinWith "\n" ((selectLines ++
          [generateJoins (addTable (addTable ctx1 "price_history")
            "fundamentals_quarterly").tables] ++ [""] ++
          ["WHERE " ++ w, "ORDER BY " ++ ob,
           "LIMIT $" ++ Nat.repr (addTable (addTable ctx1 "price_history")
            "fundamentals_quarterly").counter]).filter (fun l => l != "")),
       (addTable (addTable ctx1 "price_history") "fundamentals_quarterly").params ++
         [if dsl.limit.truthy then dsl.limit else JsVal.num 100],
       (addTable (addTable ctx1 "price_history") "fundamentals_quarterly").tables⟩ := by
  simp only [compile, hf, compileFilterTop, hw, hs, hob, eBind_ok, ePure_bind]

/-- C1 is false as stated: the validator whitelists the operator
`all_quarters` (so `validate` accepts a condition using it), but the
compiler's `_compileOperator` switch has no case for it and throws
`Unsupported operator`; hence compile fails on a validator-accepted
tree. -/
theorem c1_counterexample :
    validateErrors allQuartersDSL = [] ∧
    compile (normalizeDSL allQuartersDSL) =
      .error "Unsupported operator: all_quarters" := by
  constructor <;> rfl

/-- C1 (amended): for every DSL document the validator accepts in which
no condition uses the operator `all_quarters`, compilation of the
sanitised tree succeeds; moreover the emitted SQL text and the required
tables are unchanged when every user-supplied literal is replaced by a
fixed representative (`eraseDSL`), so literals reach the emitted SQL
only through the parameter list as numbered placeholders, never as
substrings of the SQL text. -/
theorem c1_amended (dsl : DSL) (hv : validateErrors dsl = [])
    (hq : noAllQuarters dsl = true) :
    ∃ r r' : Compiled,
      compile (normalizeDSL dsl) = .ok r ∧
      compile (eraseDSL (normalizeDSL dsl)) = .ok r' ∧
      r.sql = r'.sql ∧ r.requiredTables = r'.requiredTables := by
  cases hfil : dsl.filter with
  | none =>
    simp only [validateErrors, hfil] at hv
    exact absurd hv (by simp)
  | some f =>
    simp only [validateErrors, hfil] at hv
    rw [List.append_eq_nil] at hv
    obtain ⟨hv, hlim⟩ := hv
    rw [List.append_eq_nil] at hv
    obtain ⟨hferr, hsortm⟩ := hv
    have hqf : noAQFilter f = true := by
      simpa [noAllQuarters, hfil] using hq
    have hok := compileFilterF_ok f hferr hqf ⟨[], 1, ["companies"]⟩
    obtain ⟨⟨w, ctx1⟩, hwL⟩ := (isOk_iff _).mp hok
    have hlk := compileFilterF_lock (normFilter f) ⟨[], 1, ["companies"]⟩
      ⟨[], 1, ["companies"]⟩ (ctxEq_refl _)
    rw [hwL] at hlk
    cases hyR : compileFilterF (eraseFilter (normFilter f)) ⟨[], 1, ["companies"]⟩ with
    | error e =>
      rw [hyR] at hlk
      exact False.elim hlk
    | ok q =>
      obtain ⟨w2, ctx1'⟩ := q
      rw [hyR] at hlk
      obtain ⟨hsw, hctx⟩ : w = w2 ∧ CtxEq ctx1 ctx1' := hlk
      obtain ⟨hcnt, htab⟩ :=
        ctxEq_addTable (ctxEq_addTable hctx "price_history") "fundamentals_quarterly"
      have hnf : (normalizeDSL dsl).filter = some (normFilter f) := by
        simp [normalizeDSL, hfil]
      have hef : (eraseDSL (normalizeDSL dsl)).filter =
          some (eraseFilter (normFilter f)) := by
        simp [eraseDSL, normalizeDSL, hfil]
      have hnsort : (normalizeDSL dsl).sort = dsl.sort := rfl
      have hesort : (eraseDSL (normalizeDSL dsl)).sort = dsl.sort := rfl
      cases hsrt : dsl.sort with
      | none =>
        have hL := compile_ok_build_none (normalizeDSL dsl) (normFilter f) w ctx1
          hnf hwL (by rw [hnsort, hsrt])
        have hR := compile_ok_build_none (eraseDSL (normalizeDSL dsl))
          (eraseFilter (normFilter f)) w2 ctx1' hef hyR (by rw [hesort, hsrt])
        refine ⟨_, _, hL, hR, ?_, ?_⟩
        · dsimp only
          rw [hsw, hcnt, htab]
        · dsimp only
          rw [htab]
      | some items =>
        rw [hsrt] at hsortm
        have hserr : sortErrors items = [] := hsortm
        have hsOk := compileSortItems_isOk items hserr
        obtain ⟨parts, hparts⟩ := (isOk_iff _).mp hsOk
        have hob : compileSort items = .ok (joinWith ", " parts) := by
          simp only [compileSort, hparts, eBind_ok]
        have hL := compile_ok_build_some (normalizeDSL dsl) (normFilter f) w ctx1
          items _ hnf hwL (by rw [hnsort, hsrt]) hob
        have hR := compile_ok_build_some (eraseDSL (normalizeDSL dsl))
          (eraseFilter (normFilter f)) w2 ctx1' items _ hef hyR
          (by rw [hesort, hsrt]) hob
        refine ⟨_, _, hL, hR, ?_, ?_⟩
        · dsimp only
          rw [hsw, hcnt, htab]
        · dsimp only
          rw [htab]

/-- Witness for the amended C1 at the concrete screen `roe > 15`: it is
accepted by the validator, uses no `all_quarters` operator, and both the
original and the literal-erased documents compile to the same SQL. -/
theorem c1_witness :
    validateErrors roeDSL = [] ∧ noAllQuarters roeDSL = true ∧
    (∃ r r' : Compiled,
      compile (normalizeDSL roeDSL) = .ok r ∧
      compile (eraseDSL (normalizeDSL roeDSL)) = .ok r' ∧
      r.sql = r'.sql ∧ r.requiredTables = r'.requiredTables) :=
  ⟨rfl, rfl, c1_amended roeDSL rfl rfl⟩

end Screener